import Mathlib

/-!
Verification development for the beads-web dependency & hierarchy resolution
engine (`src/aitrac`).  The Python services are shallowly embedded: the
SQLAlchemy-backed tables become Lean lists kept in insertion order (SQLite
returns rows in rowid = insertion order for the unordered queries the
services issue), enum columns become inductive types, and every service
method becomes a pure function from a `DB` value (plus explicit inputs such
as the current time) to its result together with the updated `DB`.
-/

namespace Aitrac

/-- `Status` enum from `models/base.py`. -/
inductive Status where
  | OPEN
  | IN_PROGRESS
  | BLOCKED
  | CLOSED
  deriving DecidableEq, Repr

/-- `IssueType` enum from `models/base.py`. -/
inductive IssueType where
  | BUG
  | FEATURE
  | TASK
  | EPIC
  | CHORE
  deriving DecidableEq, Repr

/-- `DependencyType` enum from `models/base.py`. -/
inductive DependencyType where
  | BLOCKS
  | RELATED
  | PARENT_CHILD
  deriving DecidableEq, Repr

/-- Row of the `issues` table (`models/issue.py`), restricted to the columns
the verified operations read or write. -/
structure Issue where
  id : String
  title : String
  description : String := ""
  design : String := ""
  acceptance_criteria : String := ""
  notes : String := ""
  status : Status := .OPEN
  priority : Int := 2
  issue_type : IssueType := .TASK
  assignee : Option String := none
  estimated_minutes : Option Int := none
  markdown_id : Option String := none
  closed_at : Option Nat := none
  deriving DecidableEq, Repr

/-- Row of the `dependencies` table (`models/dependency.py`). -/
structure Dependency where
  issue_id : String
  depends_on_id : String
  type : DependencyType
  child_order : Int := 0
  created_by : String := "local"
  deriving DecidableEq, Repr

/-- The persistent store: both tables in insertion order.  `nextId`
abstracts the random id generator of `id_generator.py` as a deterministic
fresh-id supply (ids never collide with the `fresh-` namespace used here).
-/
structure DB where
  issues : List Issue
  deps : List Dependency
  nextId : Nat := 0
  deriving Repr

/-- `session.query(Issue).filter(Issue.id == iid).first()`. -/
def findIssue (db : DB) (iid : String) : Option Issue :=
  db.issues.find? (fun i => i.id == iid)

/-- Probe issue used by the concrete stores in witnesses and examples. -/
def exIssue (iid : String) (st : Status) (prio : Int := 2) : Issue :=
  { id := iid, title := iid, status := st, priority := prio }

/-- `DependencyService._is_issue_ready` (dependency_service.py:417-505):
every ParentChild edge pointing at the issue must lead to a closed child
and every Blocks edge leaving the issue must lead to a closed target;
edges whose endpoint does not resolve to a stored issue are ignored, as in
the source (`if child_issue:` / `if blocking_issue:`). -/
def isIssueReady (db : DB) (issue : Issue) : Bool :=
  let children := db.deps.filter
    (fun d => d.depends_on_id == issue.id && d.type == DependencyType.PARENT_CHILD)
  let childrenClosed := children.all (fun d =>
    match findIssue db d.issue_id with
    | some child => child.status == Status.CLOSED
    | none => true)
  let blocking := db.deps.filter
    (fun d => d.issue_id == issue.id && d.type == DependencyType.BLOCKS)
  let blockingClosed := blocking.all (fun d =>
    match findIssue db d.depends_on_id with
    | some b => b.status == Status.CLOSED
    | none => true)
  childrenClosed && blockingClosed

/-- The collection loop of `get_ready_work` (dependency_service.py:392-404):
append each ready issue and stop as soon as the accumulated list reaches
`limit` (`if len(ready_issues) >= limit: break`). -/
def readyLoop (db : DB) (limit : Nat) : List Issue → List Issue → List Issue
  | [], acc => acc
  | i :: rest, acc =>
    if isIssueReady db i then
      let acc' := acc ++ [i]
      if limit ≤ acc'.length then acc' else readyLoop db limit rest acc'
    else readyLoop db limit rest acc

/-- Stable insertion into a priority-sorted list: the new element goes after
every element of priority ≤ its own, which is how Python's stable
`list.sort(key=lambda x: x.priority)` orders equal keys. -/
def insertByPriority (x : Issue) : List Issue → List Issue
  | [] => [x]
  | y :: ys =>
    if y.priority ≤ x.priority then y :: insertByPriority x ys else x :: y :: ys

/-- Stable sort by ascending priority (`ready_issues.sort(key=lambda x: x.priority)`). -/
def sortByPriority (l : List Issue) : List Issue :=
  l.foldl (fun acc x => insertByPriority x acc) []

/-- `DependencyService.get_ready_work` (dependency_service.py:353-415):
filter to status OPEN/IN_PROGRESS, collect ready issues until `limit` is
reached, then sort the collected list by priority. -/
def get_ready_work (db : DB) (limit : Nat) : List Issue :=
  let openIssues := db.issues.filter
    (fun i => i.status == Status.OPEN || i.status == Status.IN_PROGRESS)
  sortByPriority (readyLoop db limit openIssues [])

/-- `IssueService.close_issue` (issue_service.py:192-222): the only failure
is an unknown id; otherwise the status is set to CLOSED and `closed_at` to
the current time, whatever the previous status was. -/
def close_issue (db : DB) (iid : String) (now : Nat) : Option Issue × DB :=
  match findIssue db iid with
  | none => (none, db)
  | some _ =>
    let updated := db.issues.map (fun i =>
      if i.id == iid then { i with status := Status.CLOSED, closed_at := some now } else i)
    match (updated.find? (fun i => i.id == iid)) with
    | some i' => (some i', { db with issues := updated })
    | none => (none, db)

/-- Successors of `c` in `_would_create_cycle`'s search: targets of stored
edges leaving `c` whose type is in the checked scope, in table order. -/
def wccSuccs (db : DB) (types : List DependencyType) (c : String) : List String :=
  (db.deps.filter (fun d => d.issue_id == c && types.contains d.type)).map
    (·.depends_on_id)

/-- Every id the cycle search can ever enqueue: the start node plus every
edge target.  Used only as a termination measure; the search itself never
consults it on reachable states. -/
def wccRelevant (db : DB) (start : String) : List String :=
  start :: db.deps.map (·.depends_on_id)

theorem length_filter_lt_of_mem_not {α : Type} (L : List α)
    (p : α → Bool) (c : α) (hc : c ∈ L) (hp : p c = false) :
    (L.filter p).length < L.length := by
  induction L with
  | nil => cases hc
  | cons a t ih =>
    rcases List.mem_cons.mp hc with rfl | hct
    · simp only [List.filter_cons, hp]
      exact Nat.lt_succ_of_le (List.length_filter_le _ _)
    · by_cases ha : p a = true
      · simp only [List.filter_cons, ha]
        simpa using Nat.succ_lt_succ (ih hct)
      · rw [Bool.not_eq_true] at ha
        simp only [List.filter_cons, ha, if_false]
        exact Nat.lt_succ_of_lt (ih hct)

theorem length_filter_lt_of_mem {α : Type} [DecidableEq α]
    (l : List α) (vis : List α) (c : α) (hc : c ∈ l) (hv : c ∉ vis) :
    (l.filter (fun x => decide (x ∉ c :: vis))).length <
      (l.filter (fun x => decide (x ∉ vis))).length := by
  have hsplit : l.filter (fun x => decide (x ∉ c :: vis)) =
      (l.filter (fun x => decide (x ∉ vis))).filter (fun x => decide (x ≠ c)) := by
    rw [List.filter_filter]
    apply List.filter_congr
    intro x _
    by_cases hx : x ∈ vis <;> by_cases hxc : x = c <;> simp [hx, hxc]
  rw [hsplit]
  apply length_filter_lt_of_mem_not
  · simp only [List.mem_filter]
    exact ⟨hc, by simp [hv]⟩
  · simp

/-- The BFS loop of `DependencyService._would_create_cycle`
(dependency_service.py:297-327): pop the queue head, skip if visited,
report a cycle if it is the searched-for source, otherwise mark visited and
enqueue the not-yet-visited successors.  The `c ∈ relevant` test is only a
termination device: every id that ever enters the queue is in `relevant`
(proved below), so the extra branch is never taken on reachable states. -/
def wccLoop (db : DB) (types : List DependencyType) (target : String)
    (relevant : List String) :
    List String → List String → Bool
  | [], _ => false
  | c :: rest, visited =>
    if c ∈ visited then wccLoop db types target relevant rest visited
    else if c ∈ relevant then
      if c = target then true
      else
        wccLoop db types target relevant
          (rest ++ (wccSuccs db types c).filter (fun s => decide (s ∉ c :: visited)))
          (c :: visited)
    else wccLoop db types target relevant rest visited
  termination_by queue visited =>
    ((relevant.filter (fun x => decide (x ∉ visited))).length, queue.length)
  decreasing_by
  · exact Prod.Lex.right _ (Nat.lt_succ_self _)
  · rename_i hvis hrel _
    exact Prod.Lex.left _ _ (length_filter_lt_of_mem relevant visited c hrel hvis)
  · exact Prod.Lex.right _ (Nat.lt_succ_self _)

/-- `DependencyService._would_create_cycle` (dependency_service.py:286-327):
breadth-first reachability search from `to_id` restricted to the given edge
types; a cycle would form when `from_id` is reached. -/
def wouldCreateCycle (db : DB) (from_id to_id : String)
    (types : List DependencyType) : Bool :=
  wccLoop db types from_id (wccRelevant db to_id) [to_id] []

/-- Outcome of `DependencyService.add_dependency`: the issue-missing `None`
return, the duplicate-edge early return, the circular-dependency
`ValueError`, or a freshly stored edge. -/
inductive AddDepResult where
  | notFound
  | existing (d : Dependency)
  | cycleError
  | added (d : Dependency)
  deriving DecidableEq, Repr

/-- Maximum stored `child_order` among the ParentChild edges under `parent`
(`order_by(desc(child_order)).first()` in dependency_service.py:54-59). -/
def maxChildOrder (db : DB) (parent : String) : Option Int :=
  let orders := (db.deps.filter (fun d =>
    d.depends_on_id == parent && d.type == DependencyType.PARENT_CHILD)).map
      (·.child_order)
  orders.max?

/-- `DependencyService.add_dependency` (dependency_service.py:16-88). -/
def add_dependency (db : DB) (issue_id depends_on_id : String)
    (dependency_type : DependencyType) (actor : String := "system") :
    AddDepResult × DB :=
  if (findIssue db issue_id).isNone || (findIssue db depends_on_id).isNone then
    (.notFound, db)
  else
    match db.deps.find? (fun d =>
        d.issue_id == issue_id && d.depends_on_id == depends_on_id &&
        d.type == dependency_type) with
    | some existing => (.existing existing, db)
    | none =>
      if wouldCreateCycle db issue_id depends_on_id [dependency_type] then
        (.cycleError, db)
      else
        let child_order : Int :=
          if dependency_type = DependencyType.PARENT_CHILD then
            match maxChildOrder db depends_on_id with
            | some m => m + 1
            | none => 0
          else 0
        let d : Dependency :=
          { issue_id := issue_id, depends_on_id := depends_on_id,
            type := dependency_type, child_order := child_order,
            created_by := actor }
        (.added d, { db with deps := db.deps ++ [d] })

/-- `DependencyService.remove_dependency` (dependency_service.py:90-126):
delete the first stored edge between the two issues (type-filtered when a
type is given). -/
def remove_dependency (db : DB) (issue_id depends_on_id : String)
    (dependency_type : Option DependencyType) : Bool × DB :=
  match db.deps.find? (fun d =>
      d.issue_id == issue_id && d.depends_on_id == depends_on_id &&
        (match dependency_type with
         | some ty => d.type == ty
         | none => true)) with
  | none => (false, db)
  | some d => (true, { db with deps := db.deps.eraseP (fun e => e == d) })

/-- One externally invokable mutation of the dependency graph. -/
inductive GraphOp where
  | add (issue_id depends_on_id : String) (ty : DependencyType)
  | remove (issue_id depends_on_id : String) (ty : Option DependencyType)
  deriving Repr

/-- Apply a sequence of `AddDependency` / `RemoveDependency` calls. -/
def applyOps (db : DB) : List GraphOp → DB
  | [] => db
  | .add f t ty :: ops => applyOps (add_dependency db f t ty).2 ops
  | .remove f t ty :: ops => applyOps (remove_dependency db f t ty).2 ops

/-- One traversal step of the cycle search: a stored edge of an in-scope
type leading from `a` to `b`. -/
def DepStep (db : DB) (types : List DependencyType) (a b : String) : Prop :=
  ∃ d ∈ db.deps, d.issue_id = a ∧ d.type ∈ types ∧ d.depends_on_id = b

/-- Reachability along in-scope stored edges. -/
def Reaches (db : DB) (types : List DependencyType) : String → String → Prop :=
  Relation.ReflTransGen (DepStep db types)

theorem mem_wccSuccs {db : DB} {types : List DependencyType} {c s : String} :
    s ∈ wccSuccs db types c ↔ DepStep db types c s := by
  simp only [wccSuccs, List.mem_map, List.mem_filter, DepStep]
  constructor
  · rintro ⟨d, ⟨hd, hcond⟩, rfl⟩
    simp only [Bool.and_eq_true, beq_iff_eq, List.elem_iff] at hcond
    exact ⟨d, hd, hcond.1, hcond.2, rfl⟩
  · rintro ⟨d, hd, h1, h2, h3⟩
    refine ⟨d, ⟨hd, ?_⟩, h3⟩
    simp [h1, List.elem_iff, h2]

theorem wccLoop_sound (db : DB) (types : List DependencyType)
    (target : String) (relevant : List String) (r : String) :
    ∀ queue visited, (∀ x ∈ queue, Reaches db types r x) →
      wccLoop db types target relevant queue visited = true →
      Reaches db types r target := by
  intro queue visited
  induction queue, visited using wccLoop.induct db types target relevant with
  | case1 visited =>
    intro _ h
    simp [wccLoop] at h
  | case2 c rest visited hvis ih =>
    intro hq hres
    rw [wccLoop, if_pos hvis] at hres
    exact ih (fun x hx => hq x (List.mem_cons_of_mem c hx)) hres
  | case3 rest visited hvis hrel =>
    intro hq _
    exact hq target (List.mem_cons_self target rest)
  | case4 c rest visited hvis hrel hne ih =>
    intro hq hres
    rw [wccLoop, if_neg hvis, if_pos hrel, if_neg hne] at hres
    refine ih (fun x hx => ?_) hres
    rcases List.mem_append.mp hx with hx | hx
    · exact hq x (List.mem_cons_of_mem c hx)
    · have hs : DepStep db types c x :=
        mem_wccSuccs.mp (List.mem_of_mem_filter hx)
      exact Relation.ReflTransGen.tail (hq c (List.mem_cons_self c rest)) hs
  | case5 c rest visited hvis hrel ih =>
    intro hq hres
    rw [wccLoop, if_neg hvis, if_neg hrel] at hres
    exact ih (fun x hx => hq x (List.mem_cons_of_mem c hx)) hres

theorem reaches_mem_closed (db : DB) (types : List DependencyType)
    (S : List String) (hS : ∀ v ∈ S, ∀ s, DepStep db types v s → s ∈ S)
    {r x : String} (hr : r ∈ S) (h : Reaches db types r x) : x ∈ S := by
  induction h with
  | refl => exact hr
  | tail _ hstep ih => exact hS _ ih _ hstep

theorem wccLoop_complete (db : DB) (types : List DependencyType)
    (target : String) (relevant : List String) (r : String)
    (hsucc : ∀ c s, s ∈ wccSuccs db types c → s ∈ relevant) :
    ∀ queue visited,
      (∀ x ∈ queue, x ∈ relevant) →
      (∀ v ∈ visited, ∀ s, s ∈ wccSuccs db types v → s ∈ visited ∨ s ∈ queue) →
      target ∉ visited →
      (r ∈ visited ∨ r ∈ queue) →
      wccLoop db types target relevant queue visited = false →
      ¬ Reaches db types r target := by
  intro queue visited
  induction queue, visited using wccLoop.induct db types target relevant with
  | case1 visited =>
    intro _ hclosed htgt hroot _ hreach
    rcases hroot with hroot | hroot
    · have : target ∈ visited := by
        refine reaches_mem_closed db types visited ?_ hroot hreach
        intro v hv s hs
        rcases hclosed v hv s (mem_wccSuccs.mpr hs) with h | h
        · exact h
        · cases h
      exact htgt this
    · cases hroot
  | case2 c rest visited hvis ih =>
    intro hq hclosed htgt hroot hres
    rw [wccLoop, if_pos hvis] at hres
    refine ih (fun x hx => hq x (List.mem_cons_of_mem c hx)) ?_ htgt ?_ hres
    · intro v hv s hs
      rcases hclosed v hv s hs with h | h
      · exact Or.inl h
      · rcases List.mem_cons.mp h with rfl | h
        · exact Or.inl hvis
        · exact Or.inr h
    · rcases hroot with h | h
      · exact Or.inl h
      · rcases List.mem_cons.mp h with rfl | h
        · exact Or.inl hvis
        · exact Or.inr h
  | case3 rest visited hvis hrel =>
    intro _ _ _ _ hres
    rw [wccLoop, if_neg hvis, if_pos hrel, if_pos rfl] at hres
    cases hres
  | case4 c rest visited hvis hrel hne ih =>
    intro hq hclosed htgt hroot hres
    rw [wccLoop, if_neg hvis, if_pos hrel, if_neg hne] at hres
    refine ih ?_ ?_ ?_ ?_ hres
    · intro x hx
      rcases List.mem_append.mp hx with hx | hx
      · exact hq x (List.mem_cons_of_mem c hx)
      · exact hsucc c x (List.mem_of_mem_filter hx)
    · intro v hv s hs
      rcases List.mem_cons.mp hv with rfl | hv
      · by_cases hsv : s ∈ v :: visited
        · rcases List.mem_cons.mp hsv with rfl | hsv
          · exact Or.inl (List.mem_cons_self _ _)
          · exact Or.inl (List.mem_cons_of_mem _ hsv)
        · refine Or.inr (List.mem_append.mpr (Or.inr ?_))
          exact List.mem_filter.mpr ⟨hs, by simpa using hsv⟩
      · rcases hclosed v hv s hs with h | h
        · exact Or.inl (List.mem_cons_of_mem _ h)
        · rcases List.mem_cons.mp h with rfl | h
          · exact Or.inl (List.mem_cons_self _ _)
          · exact Or.inr (List.mem_append.mpr (Or.inl h))
    · intro hmem
      rcases List.mem_cons.mp hmem with rfl | hmem
      · exact hne rfl
      · exact htgt hmem
    · rcases hroot with h | h
      · exact Or.inl (List.mem_cons_of_mem _ h)
      · rcases List.mem_cons.mp h with rfl | h
        · exact Or.inl (List.mem_cons_self _ _)
        · exact Or.inr (List.mem_append.mpr (Or.inl h))
  | case5 c rest visited hvis hrel ih =>
    intro hq _ _ _ _
    exact absurd (hq c (List.mem_cons_self c rest)) hrel

/-- The cycle guard is exactly reachability from `to_id` back to `from_id`
along edges of the checked types. -/
theorem wouldCreateCycle_iff (db : DB) (types : List DependencyType)
    (f t : String) :
    wouldCreateCycle db f t types = true ↔ Reaches db types t f := by
  constructor
  · intro h
    refine wccLoop_sound db types f (wccRelevant db t) t [t] [] ?_ h
    intro x hx
    rcases List.mem_cons.mp hx with rfl | hx
    · exact Relation.ReflTransGen.refl
    · cases hx
  · intro hreach
    by_contra hfalse
    rw [Bool.not_eq_true] at hfalse
    refine wccLoop_complete db types f (wccRelevant db t) t ?_ [t] [] ?_ ?_ ?_ ?_ hfalse hreach
    · intro c s hs
      simp only [wccSuccs, List.mem_map, List.mem_filter] at hs
      rcases hs with ⟨d, ⟨hd, _⟩, rfl⟩
      exact List.mem_cons_of_mem _ (List.mem_map.mpr ⟨d, hd, rfl⟩)
    · intro x hx
      rcases List.mem_cons.mp hx with rfl | hx
      · exact List.mem_cons_self _ _
      · cases hx
    · intro v hv
      cases hv
    · simp
    · exact Or.inr (List.mem_cons_self _ _)

/-- Acyclicity of the subgraph restricted to one edge type. -/
def TypeAcyclic (db : DB) (ty : DependencyType) : Prop :=
  ∀ a, ¬ Relation.TransGen (DepStep db [ty]) a a

theorem typeAcyclic_of_deps_nil {db : DB} (h : db.deps = []) (ty : DependencyType) :
    TypeAcyclic db ty := by
  intro a hcyc
  obtain ⟨b, hab, _⟩ := (Relation.TransGen.head'_iff).mp hcyc
  rcases hab with ⟨d, hd, _⟩
  rw [h] at hd
  cases hd

theorem depStep_append (db : DB) (dnew : Dependency)
    (types : List DependencyType) (a b : String) :
    DepStep { db with deps := db.deps ++ [dnew] } types a b ↔
      DepStep db types a b ∨
        (dnew.issue_id = a ∧ dnew.type ∈ types ∧ dnew.depends_on_id = b) := by
  constructor
  · rintro ⟨d, hd, hprop⟩
    rcases List.mem_append.mp hd with hd | hd
    · exact Or.inl ⟨d, hd, hprop⟩
    · rcases List.mem_singleton.mp hd with rfl
      exact Or.inr hprop
  · rintro (⟨d, hd, hprop⟩ | hprop)
    · exact ⟨d, List.mem_append.mpr (Or.inl hd), hprop⟩
    · exact ⟨dnew, List.mem_append.mpr (Or.inr (List.mem_singleton.mpr rfl)), hprop⟩

theorem reaches_append_case (db : DB) (dnew : Dependency) (ty : DependencyType)
    (hty : dnew.type = ty) {a b : String}
    (h : Reaches { db with deps := db.deps ++ [dnew] } [ty] a b) :
    Reaches db [ty] a b ∨
      (Reaches db [ty] a dnew.issue_id ∧ Reaches db [ty] dnew.depends_on_id b) := by
  induction h with
  | refl => exact Or.inl Relation.ReflTransGen.refl
  | tail _ hstep ih =>
    rcases (depStep_append db dnew [ty] _ _).mp hstep with hold | ⟨hf, _, htg⟩
    · rcases ih with ih | ⟨ihf, iht⟩
      · exact Or.inl (Relation.ReflTransGen.tail ih hold)
      · exact Or.inr ⟨ihf, Relation.ReflTransGen.tail iht hold⟩
    · rcases ih with ih | ⟨ihf, _⟩
      · exact Or.inr ⟨hf ▸ ih, htg ▸ Relation.ReflTransGen.refl⟩
      · exact Or.inr ⟨ihf, htg ▸ Relation.ReflTransGen.refl⟩

theorem typeAcyclic_append (db : DB) (dnew : Dependency) (ty0 : DependencyType)
    (hacy : TypeAcyclic db ty0)
    (hnew : dnew.type = ty0 →
      ¬ Reaches db [ty0] dnew.depends_on_id dnew.issue_id) :
    TypeAcyclic { db with deps := db.deps ++ [dnew] } ty0 := by
  intro a hcyc
  by_cases hty : dnew.type = ty0
  · obtain ⟨b, hab, hba⟩ := (Relation.TransGen.head'_iff).mp hcyc
    have hnr := hnew hty
    rcases reaches_append_case db dnew ty0 hty hba with hold | ⟨hbf, hta⟩
    · rcases (depStep_append db dnew [ty0] a b).mp hab with hstep | ⟨hf, _, htg⟩
      · exact hacy a (Relation.TransGen.head' hstep hold)
      · exact hnr (htg ▸ hf ▸ hold)
    · rcases (depStep_append db dnew [ty0] a b).mp hab with hstep | ⟨hf, _, htg⟩
      · exact hnr (Relation.ReflTransGen.trans hta
          (Relation.ReflTransGen.head hstep hbf))
      · exact hnr (hf ▸ hta)
  · refine hacy a (Relation.TransGen.mono ?_ hcyc)
    intro x y hxy
    rcases (depStep_append db dnew [ty0] x y).mp hxy with h | ⟨_, hmem, _⟩
    · exact h
    · exact absurd (List.mem_singleton.mp hmem) hty

theorem add_dependency_deps_unchanged_of_cycle (db : DB) (f t : String)
    (ty : DependencyType) (actor : String)
    (hcyc : wouldCreateCycle db f t [ty] = true) :
    (add_dependency db f t ty actor).2 = db := by
  unfold add_dependency
  split
  · rfl
  · split
    · rfl
    · rfl

theorem add_dependency_cycle_outcome (db : DB) (f t : String)
    (ty : DependencyType) (actor : String)
    (hacy : TypeAcyclic db ty)
    (hf : (findIssue db f).isSome) (ht : (findIssue db t).isSome)
    (hcyc : wouldCreateCycle db f t [ty] = true) :
    (add_dependency db f t ty actor).1 = AddDepResult.cycleError := by
  have hnone : db.deps.find? (fun d =>
      d.issue_id == f && d.depends_on_id == t && d.type == ty) = none := by
    rcases hfind : db.deps.find? (fun d =>
        d.issue_id == f && d.depends_on_id == t && d.type == ty) with _ | e
    · exact hfind
    · exfalso
      have hmem := List.mem_of_find?_eq_some hfind
      have hprop := List.find?_some hfind
      simp only [Bool.and_eq_true, beq_iff_eq] at hprop
      have hstep : DepStep db [ty] f t :=
        ⟨e, hmem, hprop.1.1, by simp [hprop.2], hprop.1.2⟩
      have hreach : Reaches db [ty] t f := (wouldCreateCycle_iff db [ty] f t).mp hcyc
      exact hacy f (Relation.TransGen.head' hstep hreach)
  have hcond : ((findIssue db f).isNone || (findIssue db t).isNone) = false := by
    rcases Option.isSome_iff_exists.mp hf with ⟨x, hx⟩
    rcases Option.isSome_iff_exists.mp ht with ⟨y, hy⟩
    simp [hx, hy]
  unfold add_dependency
  simp only [hcond, Bool.false_eq_true, if_false, hnone, hcyc, if_true]

theorem add_dependency_preserves_typeAcyclic (db : DB) (f t : String)
    (ty : DependencyType) (actor : String)
    (h : ∀ ty0, TypeAcyclic db ty0) :
    ∀ ty0, TypeAcyclic ((add_dependency db f t ty actor).2) ty0 := by
  intro ty0
  unfold add_dependency
  split
  · exact h ty0
  · split
    · exact h ty0
    · split
      · exact h ty0
      · rename_i hnc
        refine typeAcyclic_append db _ ty0 (h ty0) ?_
        intro hty
        subst hty
        intro hreach
        exact hnc ((wouldCreateCycle_iff db [ty] f t).mpr hreach)

theorem typeAcyclic_of_sublist (db db' : DB)
    (hsub : db'.deps.Sublist db.deps) (ty : DependencyType)
    (h : TypeAcyclic db ty) : TypeAcyclic db' ty := by
  intro a hcyc
  refine h a (Relation.TransGen.mono ?_ hcyc)
  rintro x y ⟨d, hd, hprop⟩
  exact ⟨d, hsub.subset hd, hprop⟩

theorem remove_dependency_preserves_typeAcyclic (db : DB) (f t : String)
    (ty : Option DependencyType) (h : ∀ ty0, TypeAcyclic db ty0) :
    ∀ ty0, TypeAcyclic ((remove_dependency db f t ty).2) ty0 := by
  intro ty0
  unfold remove_dependency
  split
  · exact h ty0
  · exact typeAcyclic_of_sublist db _ (List.eraseP_sublist _) ty0 (h ty0)

theorem applyOps_preserves_typeAcyclic (ops : List GraphOp) :
    ∀ db : DB, (∀ ty0, TypeAcyclic db ty0) →
      ∀ ty0, TypeAcyclic (applyOps db ops) ty0 := by
  induction ops with
  | nil => intro db h; exact h
  | cons op rest ih =>
    intro db h
    cases op with
    | add f t ty =>
      exact ih _ (add_dependency_preserves_typeAcyclic db f t ty _ h)
    | remove f t ty =>
      exact ih _ (remove_dependency_preserves_typeAcyclic db f t ty h)

theorem insertByPriority_perm (x : Issue) (l : List Issue) :
    (insertByPriority x l).Perm (x :: l) := by
  induction l with
  | nil => simp [insertByPriority]
  | cons y ys ih =>
    rw [insertByPriority]
    by_cases h : y.priority ≤ x.priority
    · rw [if_pos h]
      exact (ih.cons y).trans (List.Perm.swap x y ys)
    · rw [if_neg h]

theorem mem_insertByPriority {x z : Issue} {l : List Issue} :
    z ∈ insertByPriority x l ↔ z = x ∨ z ∈ l := by
  rw [(insertByPriority_perm x l).mem_iff]
  simp

theorem insertByPriority_pairwise (x : Issue) (l : List Issue)
    (h : l.Pairwise (fun a b => a.priority ≤ b.priority)) :
    (insertByPriority x l).Pairwise (fun a b => a.priority ≤ b.priority) := by
  induction l with
  | nil => simp [insertByPriority]
  | cons y ys ih =>
    rw [List.pairwise_cons] at h
    rw [insertByPriority]
    by_cases hyx : y.priority ≤ x.priority
    · rw [if_pos hyx]
      rw [List.pairwise_cons]
      refine ⟨?_, ih h.2⟩
      intro z hz
      rcases mem_insertByPriority.mp hz with rfl | hz
      · exact hyx
      · exact h.1 z hz
    · rw [if_neg hyx]
      rw [List.pairwise_cons]
      refine ⟨?_, List.pairwise_cons.mpr h⟩
      intro z hz
      rcases List.mem_cons.mp hz with rfl | hz
      · exact le_of_lt (lt_of_not_le hyx)
      · exact le_trans (le_of_lt (lt_of_not_le hyx)) (h.1 z hz)

theorem insertByPriority_filter_eq (x : Issue) (l : List Issue) (p : Int)
    (hsort : l.Pairwise (fun a b => a.priority ≤ b.priority)) :
    (insertByPriority x l).filter (fun i => i.priority == p) =
      if x.priority = p then
        l.filter (fun i => i.priority == p) ++ [x]
      else l.filter (fun i => i.priority == p) := by
  induction l with
  | nil =>
    by_cases hx : x.priority = p <;> simp [insertByPriority, hx]
  | cons y ys ih =>
    rw [List.pairwise_cons] at hsort
    rw [insertByPriority]
    by_cases hyx : y.priority ≤ x.priority
    · rw [if_pos hyx]
      rw [List.filter_cons, List.filter_cons]
      by_cases hy : y.priority = p
      · simp only [hy, beq_self_eq_true, if_true]
        rw [ih hsort.2]
        by_cases hx : x.priority = p <;> simp [hx]
      · have : (y.priority == p) = false := by simp [hy]
        simp only [this, Bool.false_eq_true, if_false]
        exact ih hsort.2
    · rw [if_neg hyx]
      have hylt : x.priority < y.priority := lt_of_not_le hyx
      by_cases hx : x.priority = p
      · have hnil : (y :: ys).filter (fun i => i.priority == p) = [] := by
          rw [List.filter_eq_nil_iff]
          intro a ha
          have hya : y.priority ≤ a.priority := by
            rcases List.mem_cons.mp ha with rfl | ha
            · exact le_refl _
            · exact hsort.1 a ha
          have : p < a.priority := lt_of_lt_of_le (hx ▸ hylt) hya
          simp only [beq_iff_eq]
          omega
        rw [if_pos hx, hnil, List.filter_cons]
        simp [hx, hnil]
      · have hxf : (x.priority == p) = false := by simp [hx]
        rw [if_neg hx, List.filter_cons, hxf]
        simp

theorem sortByPriority_go_perm (l : List Issue) :
    ∀ acc, (l.foldl (fun acc x => insertByPriority x acc) acc).Perm (acc ++ l) := by
  induction l with
  | nil => intro acc; simp
  | cons x tl ih =>
    intro acc
    rw [List.foldl_cons]
    refine (ih (insertByPriority x acc)).trans ?_
    refine (List.Perm.append_right tl ((insertByPriority_perm x acc))).trans ?_
    exact (List.perm_middle).symm.trans (by simp)

theorem sortByPriority_perm (l : List Issue) : (sortByPriority l).Perm l := by
  simpa using sortByPriority_go_perm l []

theorem mem_sortByPriority {z : Issue} {l : List Issue} :
    z ∈ sortByPriority l ↔ z ∈ l :=
  (sortByPriority_perm l).mem_iff

theorem sortByPriority_go_pairwise (l : List Issue) :
    ∀ acc, acc.Pairwise (fun a b => a.priority ≤ b.priority) →
      (l.foldl (fun acc x => insertByPriority x acc) acc).Pairwise
        (fun a b => a.priority ≤ b.priority) := by
  induction l with
  | nil => intro acc h; simpa using h
  | cons x tl ih =>
    intro acc h
    rw [List.foldl_cons]
    exact ih _ (insertByPriority_pairwise x acc h)

theorem sortByPriority_pairwise (l : List Issue) :
    (sortByPriority l).Pairwise (fun a b => a.priority ≤ b.priority) :=
  sortByPriority_go_pairwise l [] (by simp)

theorem sortByPriority_go_filter (l : List Issue) (p : Int) :
    ∀ acc, acc.Pairwise (fun a b => a.priority ≤ b.priority) →
      (l.foldl (fun acc x => insertByPriority x acc) acc).filter
          (fun i => i.priority == p) =
        acc.filter (fun i => i.priority == p) ++ l.filter (fun i => i.priority == p) := by
  induction l with
  | nil => intro acc _; simp
  | cons x tl ih =>
    intro acc h
    rw [List.foldl_cons, ih _ (insertByPriority_pairwise x acc h),
      insertByPriority_filter_eq x acc p h, List.filter_cons]
    by_cases hx : x.priority = p
    · simp [hx]
    · have : (x.priority == p) = false := by simp [hx]
      simp [hx, this]

/-- Within each priority class, the sort keeps the original order (Python's
`list.sort` is stable). -/
theorem sortByPriority_filter (l : List Issue) (p : Int) :
    (sortByPriority l).filter (fun i => i.priority == p) =
      l.filter (fun i => i.priority == p) := by
  simpa using sortByPriority_go_filter l p [] (by simp)

theorem readyLoop_eq_take (db : DB) (limit : Nat) :
    ∀ (rest acc : List Issue), acc.length < limit →
      readyLoop db limit rest acc =
        acc ++ (rest.filter (isIssueReady db)).take (limit - acc.length) := by
  intro rest
  induction rest with
  | nil => intro acc _; simp [readyLoop]
  | cons i tl ih =>
    intro acc hacc
    rw [readyLoop]
    by_cases hr : isIssueReady db i
    · simp only [hr, if_true]
      by_cases hlim : limit ≤ (acc ++ [i]).length
      · rw [if_pos hlim]
        have hl : limit - acc.length = 1 := by
          simp only [List.length_append, List.length_singleton] at hlim
          omega
        rw [List.filter_cons_of_pos hr, hl, List.take_succ_cons, List.take_zero]
      · rw [if_neg hlim]
        have hlt : (acc ++ [i]).length < limit := by omega
        rw [ih (acc ++ [i]) hlt]
        have hstep : limit - acc.length = (limit - (acc ++ [i]).length) + 1 := by
          simp only [List.length_append, List.length_singleton] at hlt ⊢
          omega
        rw [List.filter_cons_of_pos hr, hstep, List.take_succ_cons]
        simp
    · rw [if_neg hr]
      rw [ih acc hacc, List.filter_cons_of_neg (by simp [hr])]

/-- For `limit ≥ 1` the collection loop returns exactly the first `limit`
ready issues in discovery order; they are then stably sorted by priority. -/
theorem get_ready_work_eq (db : DB) (limit : Nat) (h : 1 ≤ limit) :
    get_ready_work db limit =
      sortByPriority
        (((db.issues.filter
            (fun i => i.status == Status.OPEN || i.status == Status.IN_PROGRESS)).filter
          (isIssueReady db)).take limit) := by
  simp only [get_ready_work]
  rw [readyLoop_eq_take db limit _ [] (by simpa using h)]
  simp

theorem isIssueReady_iff (db : DB) (i : Issue) :
    isIssueReady db i = true ↔
      ((∀ d ∈ db.deps, d.type = DependencyType.PARENT_CHILD → d.depends_on_id = i.id →
          ∀ c, findIssue db d.issue_id = some c → c.status = Status.CLOSED) ∧
       (∀ d ∈ db.deps, d.type = DependencyType.BLOCKS → d.issue_id = i.id →
          ∀ c, findIssue db d.depends_on_id = some c → c.status = Status.CLOSED)) := by
  simp only [isIssueReady, Bool.and_eq_true, List.all_eq_true, List.mem_filter,
    beq_iff_eq]
  constructor
  · rintro ⟨h1, h2⟩
    constructor
    · intro d hd hty hto c hc
      have := h1 d ⟨hd, hto, hty⟩
      rw [hc] at this
      simpa using this
    · intro d hd hty hfrom c hc
      have := h2 d ⟨hd, hfrom, hty⟩
      rw [hc] at this
      simpa using this
  · rintro ⟨h1, h2⟩
    constructor
    · rintro d ⟨hd, hto, hty⟩
      rcases hfi : findIssue db d.issue_id with _ | c
      · simp [hfi]
      · simpa using h1 d hd hty hto c hfi
    · rintro d ⟨hd, hfrom, hty⟩
      rcases hfi : findIssue db d.depends_on_id with _ | c
      · simp [hfi]
      · simpa using h2 d hd hty hfrom c hfi

/-- C1: an item of status Open/InProgress is in the Ready() result exactly
when every stored child (ParentChild edge into it) is Closed and every
Blocks target is Closed; ParentChild edges where it is the child and
Related edges are irrelevant, and Blocked/Closed items never appear.  The
limit is assumed large enough not to truncate (C2 records what truncation
does). -/
theorem ready_set_membership (db : DB) (limit : Nat) (i : Issue)
    (hwf : ∀ d ∈ db.deps,
      (findIssue db d.issue_id).isSome ∧ (findIssue db d.depends_on_id).isSome)
    (hpos : 1 ≤ limit) (hlim : db.issues.length ≤ limit) :
    (i ∈ get_ready_work db limit ↔
      (i ∈ db.issues ∧ (i.status = Status.OPEN ∨ i.status = Status.IN_PROGRESS) ∧
       (∀ d ∈ db.deps, d.type = DependencyType.PARENT_CHILD → d.depends_on_id = i.id →
          ∃ c, findIssue db d.issue_id = some c ∧ c.status = Status.CLOSED) ∧
       (∀ d ∈ db.deps, d.type = DependencyType.BLOCKS → d.issue_id = i.id →
          ∃ c, findIssue db d.depends_on_id = some c ∧ c.status = Status.CLOSED))) ∧
    ((i.status = Status.BLOCKED ∨ i.status = Status.CLOSED) →
      i ∉ get_ready_work db limit) := by
  have hmem : i ∈ get_ready_work db limit ↔
      (i ∈ db.issues ∧ (i.status = Status.OPEN ∨ i.status = Status.IN_PROGRESS) ∧
        isIssueReady db i = true) := by
    rw [get_ready_work_eq db limit hpos, mem_sortByPriority]
    have hlen : ((db.issues.filter
        (fun i => i.status == Status.OPEN || i.status == Status.IN_PROGRESS)).filter
          (isIssueReady db)).length ≤ limit :=
      le_trans (le_trans (List.length_filter_le _ _) (List.length_filter_le _ _)) hlim
    rw [List.take_of_length_le hlen]
    simp only [List.mem_filter, Bool.or_eq_true, beq_iff_eq]
    tauto
  constructor
  · rw [hmem, isIssueReady_iff]
    constructor
    · rintro ⟨h1, h2, h3, h4⟩
      refine ⟨h1, h2, ?_, ?_⟩
      · intro d hd hty hto
        rcases Option.isSome_iff_exists.mp (hwf d hd).1 with ⟨c, hc⟩
        exact ⟨c, hc, h3 d hd hty hto c hc⟩
      · intro d hd hty hfrom
        rcases Option.isSome_iff_exists.mp (hwf d hd).2 with ⟨c, hc⟩
        exact ⟨c, hc, h4 d hd hty hfrom c hc⟩
    · rintro ⟨h1, h2, h3, h4⟩
      refine ⟨h1, h2, ?_, ?_⟩
      · intro d hd hty hto c hc
        rcases h3 d hd hty hto with ⟨c', hc', hcl⟩
        rw [hc] at hc'
        cases hc'
        exact hcl
      · intro d hd hty hfrom c hc
        rcases h4 d hd hty hfrom with ⟨c', hc', hcl⟩
        rw [hc] at hc'
        cases hc'
        exact hcl
  · intro hst hin
    rcases (hmem.mp hin).2.1 with h | h <;> rcases hst with h' | h' <;>
      rw [h] at h' <;> cases h'

/-- Concrete store for the C1 witness: an Open parent whose only child is
Closed, so the parent is ready. -/
def c1db : DB :=
  { issues := [exIssue "p" .OPEN, exIssue "k" .CLOSED],
    deps := [{ issue_id := "k", depends_on_id := "p", type := .PARENT_CHILD }] }

/-- Witness for C1 at a concrete two-issue store. -/
theorem ready_set_membership_witness :
    (∀ d ∈ c1db.deps,
      (findIssue c1db d.issue_id).isSome ∧ (findIssue c1db d.depends_on_id).isSome) ∧
    1 ≤ 2 ∧ c1db.issues.length ≤ 2 ∧
    ((exIssue "p" .OPEN ∈ get_ready_work c1db 2 ↔
      (exIssue "p" .OPEN ∈ c1db.issues ∧
       ((exIssue "p" .OPEN).status = Status.OPEN ∨
        (exIssue "p" .OPEN).status = Status.IN_PROGRESS) ∧
       (∀ d ∈ c1db.deps, d.type = DependencyType.PARENT_CHILD →
          d.depends_on_id = (exIssue "p" .OPEN).id →
          ∃ c, findIssue c1db d.issue_id = some c ∧ c.status = Status.CLOSED) ∧
       (∀ d ∈ c1db.deps, d.type = DependencyType.BLOCKS →
          d.issue_id = (exIssue "p" .OPEN).id →
          ∃ c, findIssue c1db d.depends_on_id = some c ∧ c.status = Status.CLOSED))) ∧
     (((exIssue "p" .OPEN).status = Status.BLOCKED ∨
       (exIssue "p" .OPEN).status = Status.CLOSED) →
      exIssue "p" .OPEN ∉ get_ready_work c1db 2)) :=
  ⟨by decide, by decide, by decide,
    ready_set_membership c1db 2 (exIssue "p" .OPEN) (by decide) (by decide) (by decide)⟩

/-- The Ready(limit) result that C2 asserts, modelled from the spec's words
(spec §4.3): collect ALL ready items, sort by priority ascending with
stable ties, then truncate to `limit`. -/
def readySortedThenTruncated (db : DB) (limit : Nat) : List Issue :=
  (sortByPriority
    ((db.issues.filter
        (fun i => i.status == Status.OPEN || i.status == Status.IN_PROGRESS)).filter
      (isIssueReady db))).take limit

/-- Store refuting C2: three ready issues discovered in the order
a(priority 3), b(priority 0), c(priority 0). -/
def c2db : DB :=
  { issues := [exIssue "a" .OPEN 3, exIssue "b" .OPEN 0, exIssue "c" .OPEN 0],
    deps := [] }

/-- Counterexample to C2 as stated: with limit 2 the code collects the
first two discovered ready issues (a and b) and sorts them, returning
[b, a]; sorting all ready issues first and then truncating would return
[b, c].  The concrete outputs differ. -/
theorem ready_ordering_counterexample :
    get_ready_work c2db 2 = [exIssue "b" .OPEN 0, exIssue "a" .OPEN 3] ∧
    readySortedThenTruncated c2db 2 = [exIssue "b" .OPEN 0, exIssue "c" .OPEN 0] ∧
    get_ready_work c2db 2 ≠ readySortedThenTruncated c2db 2 := by
  refine ⟨by decide, by decide, by decide⟩

/-- C2 amended: for limit ≥ 1, Ready(limit) equals the first `limit` ready
issues in discovery order stably sorted by priority ascending — truncation
happens during collection, before sorting, so when more than `limit` items
are ready the returned ones are the first discovered, not those with the
smallest priorities.  The result is priority-sorted with equal-priority
items kept in discovery order. -/
theorem ready_ordering_amended (db : DB) (limit : Nat) (h : 1 ≤ limit) :
    get_ready_work db limit =
      sortByPriority
        (((db.issues.filter
            (fun i => i.status == Status.OPEN || i.status == Status.IN_PROGRESS)).filter
          (isIssueReady db)).take limit) ∧
    (get_ready_work db limit).Pairwise (fun a b => a.priority ≤ b.priority) ∧
    (∀ p : Int,
      (get_ready_work db limit).filter (fun i => i.priority == p) =
        ((((db.issues.filter
            (fun i => i.status == Status.OPEN || i.status == Status.IN_PROGRESS)).filter
          (isIssueReady db)).take limit).filter (fun i => i.priority == p))) := by
  refine ⟨get_ready_work_eq db limit h, ?_, ?_⟩
  · rw [get_ready_work_eq db limit h]
    exact sortByPriority_pairwise _
  · intro p
    rw [get_ready_work_eq db limit h, sortByPriority_filter]

/-- Witness for the amended C2 at the concrete store of the counterexample. -/
theorem ready_ordering_amended_witness :
    1 ≤ 2 ∧
    (get_ready_work c2db 2 =
      sortByPriority
        (((c2db.issues.filter
            (fun i => i.status == Status.OPEN || i.status == Status.IN_PROGRESS)).filter
          (isIssueReady c2db)).take 2) ∧
    (get_ready_work c2db 2).Pairwise (fun a b => a.priority ≤ b.priority) ∧
    (∀ p : Int,
      (get_ready_work c2db 2).filter (fun i => i.priority == p) =
        ((((c2db.issues.filter
            (fun i => i.status == Status.OPEN || i.status == Status.IN_PROGRESS)).filter
          (isIssueReady c2db)).take 2).filter (fun i => i.priority == p)))) :=
  ⟨by decide, ready_ordering_amended c2db 2 (by decide)⟩

theorem close_find_some (issues : List Issue) (iid : String) (now : Nat) :
    ∀ i, issues.find? (fun j => j.id == iid) = some i →
      ((issues.map (fun j => if j.id == iid then
          { j with status := Status.CLOSED, closed_at := some now } else j)).find?
        (fun j => j.id == iid)) =
        some { i with status := Status.CLOSED, closed_at := some now } := by
  induction issues with
  | nil => intro i h; cases h
  | cons a tl ih =>
    intro i h
    by_cases ha : a.id = iid
    · rw [List.find?_cons_of_pos _ (by simp [ha])] at h
      cases h
      rw [List.map_cons, List.find?_cons_of_pos _ (by simp [ha])]
      simp [ha]
    · rw [List.find?_cons_of_neg _ (by simp [ha])] at h
      rw [List.map_cons]
      rw [List.find?_cons_of_neg _ (by simp [ha])]
      exact ih i h

/-- C6 amended: `close_issue` has no state-machine precondition — it
succeeds from every status (Blocked and already-Closed included), always
setting the status to Closed and the closed timestamp to the current time;
the only failing case is an unknown id, which returns None (a NotFound,
not a PreconditionFailed). -/
theorem close_issue_amended (db : DB) (iid : String) (now : Nat) :
    (findIssue db iid = none → close_issue db iid now = (none, db)) ∧
    (∀ i, findIssue db iid = some i →
      (close_issue db iid now).1 =
        some { i with status := Status.CLOSED, closed_at := some now } ∧
      (close_issue db iid now).2.issues =
        db.issues.map (fun j => if j.id == iid then
          { j with status := Status.CLOSED, closed_at := some now } else j)) := by
  constructor
  · intro h
    rw [close_issue, h]
  · intro i h
    have hfind := close_find_some db.issues iid now i h
    simp only [close_issue, h, hfind]
    exact ⟨trivial, trivial⟩

/-- Store for C6: a single issue in status Blocked. -/
def c6db : DB := { issues := [exIssue "x" .BLOCKED], deps := [] }

/-- Counterexample to C6 as stated: invoking Close on a Blocked item does
not fail — it returns the item with status Closed and the closed timestamp
set, and the stored status changes accordingly. -/
theorem close_blocked_counterexample :
    (close_issue c6db "x" 5).1 =
      some { exIssue "x" .BLOCKED with
              status := Status.CLOSED, closed_at := some 5 } ∧
    (close_issue c6db "x" 5).2.issues =
      [{ exIssue "x" .BLOCKED with
          status := Status.CLOSED, closed_at := some 5 }] := by
  refine ⟨by decide, by decide⟩

/-- Witness for the amended C6 at the Blocked store. -/
theorem close_issue_amended_witness :
    findIssue c6db "x" = some (exIssue "x" .BLOCKED) ∧
    ((close_issue c6db "x" 5).1 =
      some { exIssue "x" .BLOCKED with
              status := Status.CLOSED, closed_at := some 5 } ∧
     (close_issue c6db "x" 5).2.issues =
       c6db.issues.map (fun j => if j.id == "x" then
         { j with status := Status.CLOSED, closed_at := some 5 } else j)) :=
  ⟨by decide, (close_issue_amended c6db "x" 5).2 (exIssue "x" .BLOCKED) (by decide)⟩

/-- `DependencyService._is_valid_parent_child_type`
(dependency_service.py:595-616) and the identical table in
`MarkdownParser._validate_type_hierarchy` (markdown_parser.py:433-439). -/
def isValidParentChildType (parent child : IssueType) : Bool :=
  match parent with
  | .EPIC => child == .FEATURE || child == .TASK || child == .BUG || child == .CHORE
  | .FEATURE => child == .TASK || child == .FEATURE
  | .TASK => child == .TASK || child == .CHORE
  | .BUG => child == .TASK
  | .CHORE => child == .TASK || child == .CHORE

/-- `IssueType.value` strings from `models/base.py`. -/
def IssueType.value : IssueType → String
  | .BUG => "bug"
  | .FEATURE => "feature"
  | .TASK => "task"
  | .EPIC => "epic"
  | .CHORE => "chore"

/-- `ParsedIssue` dataclass from markdown_parser.py. -/
structure ParsedIssue where
  logical_id : String
  title : String
  issue_type : IssueType := .TASK
  priority : Int := 2
  assignee : Option String := none
  estimated_minutes : Option Int := none
  dependencies : List String := []
  parent_logical_id : Option String := none
  depth : Nat := 0
  description : String := ""
  design : String := ""
  acceptance_criteria : String := ""
  notes : String := ""
  deriving DecidableEq, Repr

/-- Lookup in the parser's `self.issues` dict (insertion-ordered). -/
def findParsed (issues : List ParsedIssue) (lid : String) : Option ParsedIssue :=
  issues.find? (fun p => p.logical_id == lid)

/-- Error message of `MarkdownParser._validate_type_hierarchy`. -/
def hierarchyErrorMsg (parent issue : ParsedIssue) : String :=
  "Invalid type hierarchy: " ++ parent.issue_type.value ++ " '" ++
    parent.logical_id ++ "' cannot have " ++ issue.issue_type.value ++ " '" ++
    issue.logical_id ++ "' as child"

/-- The per-issue body of the `_validate_type_hierarchy` loop
(markdown_parser.py:441-450): an error when the issue has a resolvable
parent of an incompatible type. -/
def validateTypeHierarchyGo (issues : List ParsedIssue) :
    List ParsedIssue → List String
  | [] => []
  | issue :: rest =>
    (match issue.parent_logical_id with
     | none => []
     | some pid =>
       match findParsed issues pid with
       | none => []
       | some parent =>
         if isValidParentChildType parent.issue_type issue.issue_type then []
         else [hierarchyErrorMsg parent issue]) ++
      validateTypeHierarchyGo issues rest

/-- `MarkdownParser._validate_type_hierarchy` (markdown_parser.py:431-450). -/
def validateTypeHierarchy (issues : List ParsedIssue) : List String :=
  validateTypeHierarchyGo issues issues

/-- C5 amended: the parent/child type table is enforced only at
document-validation time — a type-incompatible pair in a parsed document
always produces a hierarchy error — while AddDependency / add_child never
consults issue types: with both endpoints present, no duplicate edge and no
same-type cycle, the edge is stored whatever the two items' types are, and
no HierarchyViolation outcome exists on that path. -/
theorem hierarchy_validation_amended :
    (∀ (issues : List ParsedIssue) (child parent : ParsedIssue) (pid : String),
        child ∈ issues → child.parent_logical_id = some pid →
        findParsed issues pid = some parent →
        isValidParentChildType parent.issue_type child.issue_type = false →
        validateTypeHierarchy issues ≠ []) ∧
    (∀ (db : DB) (f t : String) (ty : DependencyType) (actor : String),
        (findIssue db f).isSome → (findIssue db t).isSome →
        db.deps.find? (fun d =>
          d.issue_id == f && d.depends_on_id == t && d.type == ty) = none →
        wouldCreateCycle db f t [ty] = false →
        ∃ d, (add_dependency db f t ty actor).1 = AddDepResult.added d ∧
          (add_dependency db f t ty actor).2.deps = db.deps ++ [d]) := by
  constructor
  · intro issues child parent pid hmem hpar hfound hbad
    unfold validateTypeHierarchy
    have : ∀ l : List ParsedIssue, child ∈ l →
        validateTypeHierarchyGo issues l ≠ [] := by
      intro l
      induction l with
      | nil => intro h; cases h
      | cons x rest ih =>
        intro hx
        rcases List.mem_cons.mp hx with rfl | hx
        · simp only [validateTypeHierarchyGo, hpar, hfound, hbad]
          simp
        · rw [validateTypeHierarchyGo]
          intro hcontra
          rcases List.append_eq_nil.mp hcontra with ⟨_, h2⟩
          exact ih hx h2
    exact this issues hmem
  · intro db f t ty actor hf ht hdup hnc
    have hcond : ((findIssue db f).isNone || (findIssue db t).isNone) = false := by
      rcases Option.isSome_iff_exists.mp hf with ⟨x, hx⟩
      rcases Option.isSome_iff_exists.mp ht with ⟨y, hy⟩
      simp [hx, hy]
    have h1 : ¬ (((findIssue db f).isNone || (findIssue db t).isNone) = true) := by
      rw [hcond]
      simp
    have heq : add_dependency db f t ty actor =
        (AddDepResult.added
          { issue_id := f, depends_on_id := t, type := ty,
            child_order := if ty = DependencyType.PARENT_CHILD then
                (match maxChildOrder db t with
                 | some m => m + 1
                 | none => 0)
              else 0,
            created_by := actor },
         { db with deps := db.deps ++
            [{ issue_id := f, depends_on_id := t, type := ty,
               child_order := if ty = DependencyType.PARENT_CHILD then
                   (match maxChildOrder db t with
                    | some m => m + 1
                    | none => 0)
                 else 0,
               created_by := actor }] }) := by
      unfold add_dependency
      rw [if_neg h1, hdup]
      simp only [hnc, Bool.false_eq_true, if_false]
    exact ⟨_, by rw [heq], by rw [heq]⟩

/-- Store for the C5 counterexample: a Task `t` and an Epic `e`. -/
def c5db : DB :=
  { issues := [{ id := "t", title := "t", issue_type := .TASK },
               { id := "e", title := "e", issue_type := .EPIC }],
    deps := [] }

/-- Counterexample to C5 as stated: parenting the Epic under the Task is
disallowed by the type table, yet the direct AddDependency call (the
`add_child` path) succeeds and stores the ParentChild edge — no
HierarchyViolation occurs at edge-add time. -/
theorem hierarchy_at_add_counterexample :
    isValidParentChildType IssueType.TASK IssueType.EPIC = false ∧
    (add_dependency c5db "e" "t" DependencyType.PARENT_CHILD "api").1 =
      AddDepResult.added
        { issue_id := "e", depends_on_id := "t",
          type := DependencyType.PARENT_CHILD, child_order := 0,
          created_by := "api" } ∧
    (add_dependency c5db "e" "t" DependencyType.PARENT_CHILD "api").2.deps =
      [{ issue_id := "e", depends_on_id := "t",
         type := DependencyType.PARENT_CHILD, child_order := 0,
         created_by := "api" }] := by
  refine ⟨by decide, ?_, ?_⟩ <;>
    · simp [add_dependency, c5db, findIssue, maxChildOrder,
        wouldCreateCycle, wccRelevant]
      simp [wccLoop, wccSuccs, c5db]

/-- Parsed Task node for the C5 witness document. -/
def parsedTaskNode : ParsedIssue := { logical_id := "pt", title := "pt", issue_type := .TASK }

/-- Parsed Epic node, indented under the Task, for the C5 witness document. -/
def parsedEpicNode : ParsedIssue :=
  { logical_id := "pe", title := "pe", issue_type := .EPIC,
    parent_logical_id := some "pt" }

/-- Witness for the amended C5: the Epic-under-Task pair fails document
validation, and the same direct add succeeds. -/
theorem hierarchy_validation_amended_witness :
    (parsedEpicNode ∈ [parsedTaskNode, parsedEpicNode] ∧
     parsedEpicNode.parent_logical_id = some "pt" ∧
     findParsed [parsedTaskNode, parsedEpicNode] "pt" = some parsedTaskNode ∧
     isValidParentChildType parsedTaskNode.issue_type parsedEpicNode.issue_type = false ∧
     validateTypeHierarchy [parsedTaskNode, parsedEpicNode] ≠ []) ∧
    ((findIssue c5db "e").isSome ∧ (findIssue c5db "t").isSome ∧
     c5db.deps.find? (fun d =>
       d.issue_id == "e" && d.depends_on_id == "t" &&
         d.type == DependencyType.PARENT_CHILD) = none ∧
     wouldCreateCycle c5db "e" "t" [DependencyType.PARENT_CHILD] = false ∧
     ∃ d, (add_dependency c5db "e" "t" DependencyType.PARENT_CHILD "api").1 =
            AddDepResult.added d ∧
          (add_dependency c5db "e" "t" DependencyType.PARENT_CHILD "api").2.deps =
            c5db.deps ++ [d]) := by
  have hwcc : wouldCreateCycle c5db "e" "t" [DependencyType.PARENT_CHILD] = false := by
    simp [wouldCreateCycle, wccRelevant, c5db]
    simp [wccLoop, wccSuccs, c5db]
  constructor
  · refine ⟨by decide, by decide, by decide, by decide, ?_⟩
    exact hierarchy_validation_amended.1 [parsedTaskNode, parsedEpicNode]
      parsedEpicNode parsedTaskNode "pt"
      (by decide) (by decide) (by decide) (by decide)
  · refine ⟨by decide, by decide, by decide, hwcc, ?_⟩
    exact hierarchy_validation_amended.2 c5db "e" "t" DependencyType.PARENT_CHILD "api"
      (by decide) (by decide) (by decide) hwcc

/-- At most one stored edge per `(from, to, type)` triple. -/
def UniqueTriples (db : DB) : Prop :=
  db.deps.Pairwise (fun a b =>
    ¬ (a.issue_id = b.issue_id ∧ a.depends_on_id = b.depends_on_id ∧
        a.type = b.type))

theorem add_dependency_preserves_uniqueTriples (db : DB) (f t : String)
    (ty : DependencyType) (actor : String) (h : UniqueTriples db) :
    UniqueTriples (add_dependency db f t ty actor).2 := by
  unfold add_dependency
  split
  · exact h
  · split
    · exact h
    · split
      · exact h
      · rename_i hdup _
        refine List.pairwise_append.mpr ⟨h, List.pairwise_singleton _ _, ?_⟩
        intro a ha b hb
        rcases List.mem_singleton.mp hb with rfl
        have := List.find?_eq_none.mp hdup a ha
        simp only [Bool.and_eq_true, beq_iff_eq, not_and] at this
        rintro ⟨h1, h2, h3⟩
        exact this ⟨h1, h2⟩ h3

theorem remove_dependency_preserves_uniqueTriples (db : DB) (f t : String)
    (ty : Option DependencyType) (h : UniqueTriples db) :
    UniqueTriples (remove_dependency db f t ty).2 := by
  unfold remove_dependency
  split
  · exact h
  · exact List.Pairwise.sublist (List.eraseP_sublist _) h

theorem applyOps_preserves_uniqueTriples (ops : List GraphOp) :
    ∀ db : DB, UniqueTriples db → UniqueTriples (applyOps db ops) := by
  induction ops with
  | nil => exact fun db h => h
  | cons op rest ih =>
    intro db h
    cases op with
    | add f t ty =>
      exact ih _ (add_dependency_preserves_uniqueTriples db f t ty _ h)
    | remove f t ty =>
      exact ih _ (remove_dependency_preserves_uniqueTriples db f t ty h)

theorem add_dependency_added_inversion (db : DB) (f t : String)
    (ty : DependencyType) (actor : String) (d : Dependency) (db' : DB)
    (h : add_dependency db f t ty actor = (AddDepResult.added d, db')) :
    db' = { db with deps := db.deps ++ [d] } ∧
    db.deps.find? (fun e =>
      e.issue_id == f && e.depends_on_id == t && e.type == ty) = none ∧
    ((findIssue db f).isNone || (findIssue db t).isNone) = false ∧
    d.issue_id = f ∧ d.depends_on_id = t ∧ d.type = ty := by
  unfold add_dependency at h
  split at h
  · cases h
  · split at h
    · cases h
    · split at h
      · cases h
      · rename_i hex hopt hdup hnc
        rw [Prod.mk.injEq] at h
        obtain ⟨hres, hdb⟩ := h
        cases hres
        refine ⟨hdb.symm, hdup, ?_, rfl, rfl, rfl⟩
        simpa [Option.isSome_iff_ne_none] using hex

/-- C10: every reachable store keeps at most one edge per (from,to,type)
triple, and re-issuing an identical AddDependency after a successful add is
not an error: it returns the very edge stored by the first call, with
identical attributes, and leaves the store unchanged. -/
theorem duplicate_edge_idempotent (db : DB) (ops : List GraphOp)
    (hu : UniqueTriples db) :
    UniqueTriples (applyOps db ops) ∧
    (∀ (dbx : DB) (f t : String) (ty : DependencyType) (actor actor' : String)
        (d : Dependency) (db' : DB),
      add_dependency dbx f t ty actor = (AddDepResult.added d, db') →
      add_dependency db' f t ty actor' = (AddDepResult.existing d, db') ∧
        d.issue_id = f ∧ d.depends_on_id = t ∧ d.type = ty) := by
  refine ⟨applyOps_preserves_uniqueTriples ops db hu, ?_⟩
  intro dbx f t ty actor actor' d db' h
  obtain ⟨hdb', hdup, hex, hf, ht, hty⟩ :=
    add_dependency_added_inversion dbx f t ty actor d db' h
  refine ⟨?_, hf, ht, hty⟩
  have hfind' : db'.deps.find? (fun e =>
      e.issue_id == f && e.depends_on_id == t && e.type == ty) = some d := by
    rw [hdb']
    rw [List.find?_append, hdup]
    simp [hf, ht, hty]
  have hiss : db'.issues = dbx.issues := by rw [hdb']
  unfold add_dependency
  rw [show findIssue db' f = findIssue dbx f by rw [findIssue, findIssue, hiss],
      show findIssue db' t = findIssue dbx t by rw [findIssue, findIssue, hiss],
      if_neg (by rw [hex]; simp), hfind']

/-- Store for the C10 witness. -/
def c10db : DB := { issues := [exIssue "a" .OPEN, exIssue "b" .OPEN], deps := [] }

/-- The edge stored by the first successful add in the C10 witness. -/
def c10edge : Dependency :=
  { issue_id := "a", depends_on_id := "b", type := DependencyType.BLOCKS,
    child_order := 0, created_by := "system" }

/-- Witness for C10: a concrete duplicate add returns the stored edge and
changes nothing. -/
theorem duplicate_edge_idempotent_witness :
    UniqueTriples c10db ∧
    (UniqueTriples (applyOps c10db [GraphOp.add "a" "b" DependencyType.BLOCKS]) ∧
     (∀ (dbx : DB) (f t : String) (ty : DependencyType) (actor actor' : String)
         (d : Dependency) (db' : DB),
       add_dependency dbx f t ty actor = (AddDepResult.added d, db') →
       add_dependency db' f t ty actor' = (AddDepResult.existing d, db') ∧
         d.issue_id = f ∧ d.depends_on_id = t ∧ d.type = ty)) ∧
    add_dependency c10db "a" "b" DependencyType.BLOCKS "system" =
      (AddDepResult.added c10edge, { c10db with deps := [c10edge] }) ∧
    add_dependency { c10db with deps := [c10edge] } "a" "b"
        DependencyType.BLOCKS "system" =
      (AddDepResult.existing c10edge, { c10db with deps := [c10edge] }) := by
  have hu : UniqueTriples c10db := List.Pairwise.nil
  have h1 : add_dependency c10db "a" "b" DependencyType.BLOCKS "system" =
      (AddDepResult.added c10edge, { c10db with deps := [c10edge] }) := by
    simp [add_dependency, c10db, findIssue, exIssue, maxChildOrder,
      wouldCreateCycle, wccRelevant]
    simp [wccLoop, wccSuccs, c10db]
    rfl
  have hmain := duplicate_edge_idempotent c10db [GraphOp.add "a" "b" DependencyType.BLOCKS] hu
  refine ⟨hu, hmain, h1, ?_⟩
  exact (hmain.2 c10db "a" "b" DependencyType.BLOCKS "system" "system"
    c10edge { c10db with deps := [c10edge] } h1).1

/-- ASCII part of the Python regex `\\s` character class. -/
def isPySpace (c : Char) : Bool :=
  c == ' ' || c == '\t' || c == '\n' || c == '\r' ||
    c == Char.ofNat 11 || c == Char.ofNat 12

/-- Python `str.strip()` on a character list. -/
def stripChars (cs : List Char) : List Char :=
  ((cs.dropWhile isPySpace).reverse.dropWhile isPySpace).reverse

/-- Python `str.strip()`. -/
def pyStrip (s : String) : String := ⟨stripChars s.data⟩

/-- Python `str.rstrip()`. -/
def pyRstrip (s : String) : String := ⟨(s.data.reverse.dropWhile isPySpace).reverse⟩

/-- Python `str.lower()` (ASCII). -/
def pyLower (s : String) : String := ⟨s.data.map Char.toLower⟩

/-- Python `str.split(sep)` for a single-character separator. -/
def splitOnChar (sep : Char) (cs : List Char) : List (List Char) :=
  cs.foldr (fun c acc =>
    match acc with
    | [] => [[c]]
    | g :: gs => if c == sep then [] :: g :: gs else (c :: g) :: gs) [[]]

/-- Python `str.split('\n')`. -/
def splitLines (s : String) : List String :=
  (splitOnChar '\n' s.data).map (fun cs => ⟨cs⟩)

def digitsToNat? : List Char → Option Nat
  | [] => none
  | cs =>
    if cs.all Char.isDigit then
      some (cs.foldl (fun n c => n * 10 + (c.toNat - 48)) 0)
    else none

/-- Python `int(value)` on a decimal literal (optional sign, surrounding
whitespace), `none` standing for the `ValueError`. -/
def pyInt? (s : String) : Option Int :=
  let cs := stripChars s.data
  match cs with
  | '-' :: rest => (digitsToNat? rest).map (fun n => -(n : Int))
  | '+' :: rest => (digitsToNat? rest).map (fun n => (n : Int))
  | _ => (digitsToNat? cs).map (fun n => (n : Int))

/-- Deterministic translation of `MarkdownParser.ISSUE_PATTERN`
(`^(\\s*)-\\s*\\[([^\\]]+)\\]\\s*([^,]+?)(?:,\\s*(.+))?$`,
markdown_parser.py:49): leading whitespace (the indent group), a dash,
optional whitespace, a non-empty bracketed id, then the lazy non-comma
title and an optional `,`-separated parameter tail.  Because the title
class excludes commas and the id class excludes `]`, the regex backtracking
is fully determined: the title runs from the end of the greedy whitespace
run to the first comma (falling back to the last whitespace character when
only whitespace is available), and the parameter tail is everything after
that comma minus its greedy whitespace prefix (again keeping one character
when the tail is all whitespace, and failing when it is empty). -/
def matchIssueLine (line : String) : Option (Nat × String × String × Option String) :=
  let cs := line.data
  let ind := cs.takeWhile isPySpace
  match cs.dropWhile isPySpace with
  | '-' :: r2 =>
    match r2.dropWhile isPySpace with
    | '[' :: r4 =>
      let idChars := r4.takeWhile (fun c => !(c == ']'))
      if idChars.isEmpty then none
      else
        match r4.dropWhile (fun c => !(c == ']')) with
        | ']' :: r6 =>
          let pre := r6.takeWhile (fun c => !(c == ','))
          let post := r6.dropWhile (fun c => !(c == ','))
          let wsTitle := pre.dropWhile isPySpace
          let title? : Option (List Char) :=
            if !wsTitle.isEmpty then some wsTitle
            else match pre.getLast? with
              | some c => some [c]
              | none => none
          if post.isEmpty then
            match title? with
            | some ti => some (ind.length, ⟨idChars⟩, ⟨ti⟩, none)
            | none => none
          else
            let rest := post.tail
            let params? : Option (List Char) :=
              let core := rest.dropWhile isPySpace
              if !core.isEmpty then some core
              else match rest.getLast? with
                | some c => some [c]
                | none => none
            match title?, params? with
            | some ti, some pa => some (ind.length, ⟨idChars⟩, ⟨ti⟩, some ⟨pa⟩)
            | _, _ => none
        | _ => none
    | _ => none
  | _ => none

/-- `MarkdownParser._find_section_start`'s per-line test: the stripped line
matches `^#\\s+<name>` case-insensitively (markdown_parser.py:94-100). -/
def matchesSectionHeader (name : String) (line : String) : Bool :=
  match stripChars line.data with
  | '#' :: rest =>
    let wsp := rest.takeWhile isPySpace
    let after := rest.dropWhile isPySpace
    !wsp.isEmpty &&
      (after.take name.data.length).map Char.toLower == name.data.map Char.toLower
  | _ => false

/-- `MarkdownParser._find_section_start` (markdown_parser.py:94-100):
index of the line after the first matching header. -/
def findSectionStart (lines : List String) (name : String) : Option Nat :=
  (lines.findIdx? (fun l => matchesSectionHeader name l)).map (· + 1)

/-- `CONTENT_SECTION_PATTERN` / `CONTENT_SUBSECTION_PATTERN`
(`^##\\s+([^\\s]+)$`, `^###\\s+([^\\s]+)$`): the marker, mandatory
whitespace, then a single whitespace-free token reaching the end. -/
def matchContentHeader (marker : List Char) (line : String) : Option String :=
  let cs := line.data
  if cs.take marker.length == marker then
    let rest := cs.drop marker.length
    let wsp := rest.takeWhile isPySpace
    let tok := rest.dropWhile isPySpace
    if !wsp.isEmpty && !tok.isEmpty && tok.all (fun c => !(isPySpace c)) then
      some ⟨tok⟩
    else none
  else none

example : matchIssueLine "- [A1] First task, t=bug, p=1" =
    some (0, "A1", "First task", some "t=bug, p=1") := by decide

example : matchIssueLine "    - [B] Child" = some (4, "B", "Child", none) := by
  decide

example : matchIssueLine "not an issue line" = none := by decide

example : matchesSectionHeader "Issues Structure" "# issues structure  " = true := by
  decide

example : matchContentHeader ['#', '#'] "## A1" = some "A1" := by decide

example : matchContentHeader ['#', '#'] "### A1" = none := by decide

/-- `MarkdownParser._smart_split_parameters` (markdown_parser.py:220-244):
split on commas outside square brackets; each piece is stripped and empty
pieces are dropped. -/
def smartSplitGo : List Char → Int → List Char → List (List Char) → List (List Char)
  | [], _, cur, acc =>
    if (stripChars cur).isEmpty then acc else acc ++ [stripChars cur]
  | ch :: rest, depth, cur, acc =>
    if ch == '[' then smartSplitGo rest (depth + 1) (cur ++ [ch]) acc
    else if ch == ']' then smartSplitGo rest (depth - 1) (cur ++ [ch]) acc
    else if ch == ',' && depth == 0 then
      smartSplitGo rest depth []
        (if (stripChars cur).isEmpty then acc else acc ++ [stripChars cur])
    else smartSplitGo rest depth (cur ++ [ch]) acc

def smartSplitParameters (s : String) : List String :=
  (smartSplitGo s.data 0 [] []).map (fun cs => ⟨cs⟩)

/-- Python `param.split('=', 1)` guarded by `'=' in param`. -/
def splitEq1 (cs : List Char) : Option (List Char × List Char) :=
  let key := cs.takeWhile (fun c => !(c == '='))
  if key.length = cs.length then none
  else some (key, cs.drop (key.length + 1))

def lineMsg (n : Nat) (rest : String) : String :=
  "Line " ++ toString n ++ ": " ++ rest

/-- `MarkdownParser._parse_issue_type` (markdown_parser.py:246-262):
case-insensitive lookup over the enum members in declaration order, warning
and defaulting to task on failure. -/
def parseIssueTypeParam (value lid : String) (lineNum : Nat) :
    IssueType × List String :=
  match [IssueType.BUG, .FEATURE, .TASK, .EPIC, .CHORE].find?
      (fun t => pyLower t.value == pyLower value) with
  | some t => (t, [])
  | none =>
    (.TASK, [lineMsg lineNum ("Invalid issue type '" ++ value ++ "' for issue '" ++
      lid ++ "', using 'task'")])

/-- `MarkdownParser._parse_priority` (markdown_parser.py:264-279). -/
def parsePriorityParam (value lid : String) (lineNum : Nat) : Int × List String :=
  match pyInt? value with
  | none =>
    (2, [lineMsg lineNum ("Invalid priority '" ++ value ++ "' for issue '" ++
      lid ++ "', using 2")])
  | some p =>
    if 0 ≤ p && p ≤ 4 then (p, [])
    else (2, [lineMsg lineNum ("Priority '" ++ value ++
      "' out of range (0-4) for issue '" ++ lid ++ "', using 2")])

/-- `MarkdownParser._parse_estimate` (markdown_parser.py:281-296). -/
def parseEstimateParam (value lid : String) (lineNum : Nat) :
    Option Int × List String :=
  match pyInt? value with
  | none =>
    (none, [lineMsg lineNum ("Invalid estimate '" ++ value ++ "' for issue '" ++
      lid ++ "', ignoring")])
  | some e =>
    if 0 < e then (some e, [])
    else (none, [lineMsg lineNum ("Invalid estimate '" ++ value ++
      "' for issue '" ++ lid ++ "', ignoring")])

/-- `MarkdownParser._parse_dependencies` (markdown_parser.py:298-314). -/
def parseDependenciesParam (value : String) : List String :=
  if value == "" then []
  else
    let v := stripChars value.data
    let core :=
      if v.head? == some '[' && v.getLast? == some ']' then (v.drop 1).dropLast
      else v
    if core.isEmpty then []
    else
      (((splitOnChar ',' core).map stripChars).filter
        (fun d => !d.isEmpty)).map (fun cs => (⟨cs⟩ : String))

/-- Accumulator of `MarkdownParser._parse_parameters`. -/
structure ParamAcc where
  issue_type : IssueType := .TASK
  priority : Int := 2
  assignee : Option String := none
  estimated_minutes : Option Int := none
  dependencies : List String := []
  warnings : List String := []
  deriving Repr

/-- One iteration of the parameter loop (markdown_parser.py:187-216).  The
`except` clause that would turn helper exceptions into errors is
unreachable: every helper catches its own failures and falls back with a
warning, so the loop only ever produces warnings. -/
def processParam (acc : ParamAcc) (param : String) (lid : String) (lineNum : Nat) :
    ParamAcc :=
  match splitEq1 param.data with
  | none =>
    { acc with warnings := acc.warnings ++
        [lineMsg lineNum ("Invalid parameter format '" ++ param ++
          "' for issue '" ++ lid ++ "'")] }
  | some (k, v) =>
    let key : String := ⟨stripChars k⟩
    let value : String := ⟨stripChars v⟩
    if key == "t" then
      let (t, w) := parseIssueTypeParam value lid lineNum
      { acc with issue_type := t, warnings := acc.warnings ++ w }
    else if key == "p" then
      let (p, w) := parsePriorityParam value lid lineNum
      { acc with priority := p, warnings := acc.warnings ++ w }
    else if key == "assignee" then
      { acc with assignee := if value == "" then none else some value }
    else if key == "est" then
      let (e, w) := parseEstimateParam value lid lineNum
      { acc with estimated_minutes := e, warnings := acc.warnings ++ w }
    else if key == "deps" then
      { acc with dependencies := parseDependenciesParam value }
    else
      { acc with warnings := acc.warnings ++
          [lineMsg lineNum ("Unknown parameter '" ++ key ++ "' for issue '" ++
            lid ++ "'")] }

/-- `MarkdownParser._parse_parameters` (markdown_parser.py:173-218). -/
def parseParameters (paramsStr : Option String) (lid : String) (lineNum : Nat) :
    ParamAcc :=
  match paramsStr with
  | none => {}
  | some s =>
    (smartSplitParameters s).foldl (fun acc p => processParam acc p lid lineNum) {}

/-- Parser state threaded through `_parse_issues_structure`. -/
structure ParseState where
  issues : List ParsedIssue := []
  errors : List String := []
  warnings : List String := []
  deriving Repr

/-- `logical_id in self.issues`. -/
def parsedContains (issues : List ParsedIssue) (lid : String) : Bool :=
  (findParsed issues lid).isSome

/-- One iteration of the `_parse_issues_structure` loop
(markdown_parser.py:102-171): skip blanks/headers and non-matching lines,
report empty ids, duplicate ids and empty titles, otherwise record the
parsed issue with its parameters and the parent inferred from the
indentation stack (kept here with its top at the head). -/
def parseStructureLine (ps : ParseState) (stack : List (String × Nat))
    (lineNum : Nat) (rawLine : String) : ParseState × List (String × Nat) :=
  let line := pyRstrip rawLine
  if line == "" || line.data.head? == some '#' then (ps, stack)
  else
    match matchIssueLine line with
    | none => (ps, stack)
    | some (indent, rawId, rawTitle, paramsStr) =>
      let depth := indent / 4
      if pyStrip rawId == "" then
        ({ ps with errors := ps.errors ++ [lineMsg lineNum "Empty logical ID"] },
         stack)
      else
        let lid := pyStrip rawId
        if parsedContains ps.issues lid then
          ({ ps with errors := ps.errors ++
              [lineMsg lineNum ("Duplicate logical ID '" ++ lid ++ "'")] }, stack)
        else
          let title := pyStrip rawTitle
          if title == "" then
            ({ ps with errors := ps.errors ++
                [lineMsg lineNum ("Empty title for issue '" ++ lid ++ "'")] },
             stack)
          else
            let pa := parseParameters paramsStr lid lineNum
            let stack1 :=
              if 0 < depth then stack.dropWhile (fun p => depth ≤ p.2) else stack
            let parentAndWarns : Option String × List String :=
              if 0 < depth then
                match stack1 with
                | p :: _ => (some p.1, [])
                | [] =>
                  (none, [lineMsg lineNum ("Issue '" ++ lid ++
                    "' is indented but has no parent")])
              else (none, [])
            let issue : ParsedIssue :=
              { logical_id := lid, title := title, issue_type := pa.issue_type,
                priority := pa.priority, assignee := pa.assignee,
                estimated_minutes := pa.estimated_minutes,
                dependencies := pa.dependencies,
                parent_logical_id := parentAndWarns.1, depth := depth }
            ({ ps with
                issues := ps.issues ++ [issue],
                warnings := ps.warnings ++ pa.warnings ++ parentAndWarns.2 },
             (lid, depth) :: stack1)

/-- The `_parse_issues_structure` loop with 1-based line numbers. -/
def parseStructureLines : List String → Nat → ParseState → List (String × Nat) →
    ParseState
  | [], _, ps, _ => ps
  | l :: rest, n, ps, stack =>
    let (ps', stack') := parseStructureLine ps stack n l
    parseStructureLines rest (n + 1) ps' stack'

/-- Python `'\n'.join(...)` on character lists. -/
def joinWithNewlines : List (List Char) → List Char
  | [] => []
  | [g] => g
  | g :: gs => g ++ '\n' :: joinWithNewlines gs

/-- `MarkdownParser._save_content`'s field dispatch
(markdown_parser.py:376-384). -/
def contentFieldSet (p : ParsedIssue) (field content : String) : ParsedIssue :=
  if field == "description" then { p with description := content }
  else if field == "design" then { p with design := content }
  else if field == "acceptance_criteria" then { p with acceptance_criteria := content }
  else if field == "notes" then { p with notes := content }
  else p

/-- `MarkdownParser._save_content` (markdown_parser.py:368-384). -/
def saveContent (issues : List ParsedIssue) (lid field : String)
    (lines : List String) : List ParsedIssue :=
  if parsedContains issues lid then
    let content := pyStrip ⟨joinWithNewlines (lines.map (·.data))⟩
    issues.map (fun p =>
      if p.logical_id == lid then contentFieldSet p field content else p)
  else issues

/-- State of the `_parse_detailed_content` loop. -/
structure ContentAcc where
  issues : List ParsedIssue
  warnings : List String
  currentId : Option String := none
  currentField : Option String := none
  contentLines : List String := []

/-- "Save previous content if any" steps of `_parse_detailed_content`. -/
def contentSaveIfAny (acc : ContentAcc) : ContentAcc :=
  match acc.currentId, acc.currentField with
  | some lid, some f =>
    if acc.contentLines.isEmpty then acc
    else { acc with issues := saveContent acc.issues lid f acc.contentLines }
  | _, _ => acc

/-- One iteration of `_parse_detailed_content` (markdown_parser.py:316-366). -/
def parseContentLine (acc : ContentAcc) (rawLine : String) : ContentAcc :=
  let line := pyRstrip rawLine
  match matchContentHeader ['#', '#'] line with
  | some lid =>
    let acc := contentSaveIfAny acc
    if parsedContains acc.issues lid then
      { acc with currentId := some lid, currentField := none, contentLines := [] }
    else
      { acc with
        currentId := none, currentField := none, contentLines := [],
        warnings := acc.warnings ++
          ["Detailed content section for unknown issue '" ++ lid ++ "'"] }
  | none =>
    match matchContentHeader ['#', '#', '#'] line with
    | some field =>
      let acc := contentSaveIfAny acc
      if field == "description" || field == "design" ||
          field == "acceptance_criteria" || field == "notes" then
        { acc with currentField := some field, contentLines := [] }
      else
        { acc with
          currentField := none, contentLines := [],
          warnings := acc.warnings ++
            ["Unknown content field '" ++ field ++ "' for issue '" ++
              (match acc.currentId with | some s => s | none => "None") ++ "'"] }
    | none =>
      match acc.currentId, acc.currentField with
      | some _, some _ => { acc with contentLines := acc.contentLines ++ [line] }
      | _, _ => acc

/-- `MarkdownParser._parse_detailed_content` (markdown_parser.py:316-366). -/
def parseDetailedContent (issues : List ParsedIssue) (warnings : List String)
    (lines : List String) : List ParsedIssue × List String :=
  let acc := lines.foldl parseContentLine
    { issues := issues, warnings := warnings }
  let acc := contentSaveIfAny acc
  (acc.issues, acc.warnings)

/-- Dependency-reference validation (markdown_parser.py:388-394). -/
def validateDepRefs (issues : List ParsedIssue) : List String :=
  (issues.map (fun issue =>
    issue.dependencies.filterMap (fun depId =>
      if parsedContains issues depId then none
      else some ("Issue '" ++ issue.logical_id ++ "' depends on unknown issue '" ++
        depId ++ "'")))).flatten

/-- The recursive `has_cycle` of `_check_circular_dependencies`
(markdown_parser.py:407-423), with an explicit recursion budget standing
for the call stack: every nested call pushes a previously unvisited id, so
with budget `issues.length + 1` the zero-budget branch is unreachable.
The `for dep_id in issue.dependencies` loop is a fold that stops doing
work once a cycle is found, matching the early `return True`. -/
def hasCycleDFS (issues : List ParsedIssue) :
    Nat → String → List String → List String → Bool × List String
  | 0, _, visited, _ => (false, visited)
  | fuel + 1, iid, visited, recStack =>
    if iid ∈ recStack then (true, visited)
    else if iid ∈ visited then (false, visited)
    else
      match findParsed issues iid with
      | none => (false, iid :: visited)
      | some issue =>
        issue.dependencies.foldl (fun acc dep =>
          if acc.1 then acc
          else if parsedContains issues dep then
            hasCycleDFS issues fuel dep acc.2 (iid :: recStack)
          else acc) (false, iid :: visited)

/-- The top-level loop of `_check_circular_dependencies`
(markdown_parser.py:425-429): one error, then stop. -/
def checkCircularGo (issues : List ParsedIssue) :
    List ParsedIssue → List String → List String
  | [], _ => []
  | p :: rest, visited =>
    if p.logical_id ∈ visited then checkCircularGo issues rest visited
    else
      match hasCycleDFS issues (issues.length + 1) p.logical_id visited [] with
      | (true, _) =>
        ["Circular dependency detected involving issue '" ++ p.logical_id ++ "'"]
      | (false, v') => checkCircularGo issues rest v'

def checkCircularDependencies (issues : List ParsedIssue) : List String :=
  checkCircularGo issues issues []

/-- `MarkdownParser._validate_issues` (markdown_parser.py:386-400). -/
def validateIssues (issues : List ParsedIssue) : List String :=
  validateDepRefs issues ++ checkCircularDependencies issues ++
    validateTypeHierarchy issues

/-- Result of `MarkdownParser.parse`. -/
structure ParseResult where
  issues : List ParsedIssue
  errors : List String
  warnings : List String
  deriving Repr

/-- `MarkdownParser.parse` (markdown_parser.py:65-92). -/
def parseMarkdown (text : String) : ParseResult :=
  let lines := splitLines text
  match findSectionStart lines "Issues Structure" with
  | none =>
    { issues := [], errors := ["Missing '# Issues Structure' section"],
      warnings := [] }
  | some structStart =>
    let contentStart := findSectionStart lines "Detailed Content"
    let structEnd := contentStart.getD lines.length
    let structLines := (lines.take structEnd).drop structStart
    let st := parseStructureLines structLines 1 {} []
    let issuesAndWarns :=
      match contentStart with
      | some cst => parseDetailedContent st.issues st.warnings (lines.drop cst)
      | none => (st.issues, st.warnings)
    { issues := issuesAndWarns.1,
      errors := st.errors ++ validateIssues issuesAndWarns.1,
      warnings := issuesAndWarns.2 }

/-- `_find_existing_issue_by_markdown_id` (markdown_import.py:207-220). -/
def findExistingIssueByMarkdownId (db : DB) (mid : String) : Option Issue :=
  db.issues.find? (fun i => i.markdown_id == some mid)

/-- Fresh storage id: the random generator with collision detection of
`id_generator.py` is abstracted as a deterministic supply; the model only
relies on the generated id being unused, which `pickFresh_not_mem` proves. -/
def freshMarker (n : Nat) : String := ⟨'f' :: 'r' :: 'e' :: 's' :: 'h' :: '-' :: List.replicate n '*'⟩

def pickFresh (db : DB) : String :=
  let used := db.issues.map (·.id)
  (((List.range (db.issues.length + 1)).map (fun k => freshMarker (db.nextId + k))).find?
    (fun s => !(used.contains s))).getD (freshMarker (db.nextId + db.issues.length + 1))

/-- `IssueService.create_issue` (issue_service.py:17-70): a fresh id, the
given fields, status Open. -/
def create_issue (db : DB) (title description design acceptance_criteria notes : String)
    (priority : Int) (issue_type : IssueType) (assignee : Option String)
    (estimated_minutes : Option Int) (_actor : String := "system") : Issue × DB :=
  let iid := pickFresh db
  let issue : Issue :=
    { id := iid, title := title, description := description, design := design,
      acceptance_criteria := acceptance_criteria, notes := notes,
      status := .OPEN, priority := priority, issue_type := issue_type,
      assignee := assignee, estimated_minutes := estimated_minutes,
      markdown_id := none, closed_at := none }
  (issue, { db with issues := db.issues ++ [issue], nextId := db.nextId + 1 })

/-- The update dictionary of `IssueService.update_issue`; a `none` entry is
a key that is absent or maps to Python `None` — both are skipped by the
`value is not None` guard (issue_service.py:151-153). -/
structure IssueUpdates where
  title : Option String := none
  description : Option String := none
  design : Option String := none
  acceptance_criteria : Option String := none
  notes : Option String := none
  priority : Option Int := none
  issue_type : Option IssueType := none
  assignee : Option String := none
  estimated_minutes : Option Int := none
  markdown_id : Option String := none
  deriving Repr

def applyUpdates (i : Issue) (u : IssueUpdates) : Issue :=
  { i with
    title := u.title.getD i.title,
    description := u.description.getD i.description,
    design := u.design.getD i.design,
    acceptance_criteria := u.acceptance_criteria.getD i.acceptance_criteria,
    notes := u.notes.getD i.notes,
    priority := u.priority.getD i.priority,
    issue_type := u.issue_type.getD i.issue_type,
    assignee := match u.assignee with | none => i.assignee | some s => some s,
    estimated_minutes :=
      match u.estimated_minutes with | none => i.estimated_minutes | some e => some e,
    markdown_id := match u.markdown_id with | none => i.markdown_id | some m => some m }

/-- `IssueService.update_issue` (issue_service.py:134-190): overwrite the
non-None fields of the issue with the given id, keeping the id. -/
def update_issue (db : DB) (iid : String) (u : IssueUpdates) :
    Option Issue × DB :=
  match findIssue db iid with
  | none => (none, db)
  | some _ =>
    let updated := db.issues.map (fun i =>
      if i.id == iid then applyUpdates i u else i)
    (updated.find? (fun i => i.id == iid), { db with issues := updated })

/-- The field overwrite performed by the import for one parsed node
(markdown_import.py:125-140). -/
def importUpdatesOf (p : ParsedIssue) : IssueUpdates :=
  { title := some p.title, description := some p.description,
    design := some p.design, acceptance_criteria := some p.acceptance_criteria,
    notes := some p.notes, priority := some p.priority,
    issue_type := some p.issue_type, assignee := p.assignee,
    estimated_minutes := p.estimated_minutes, markdown_id := some p.logical_id }

/-- First pass of `_import_issues` (markdown_import.py:116-166): update the
item carrying the logical id in place, or create a new item and stamp its
markdown id; record the logical-to-storage mapping and the counters. -/
def importFirstPass : DB → List ParsedIssue → List (String × String) →
    Nat → Nat → DB × List (String × String) × Nat × Nat
  | db, [], mapping, created, updated => (db, mapping, created, updated)
  | db, p :: rest, mapping, created, updated =>
    match findExistingIssueByMarkdownId db p.logical_id with
    | some existing =>
      let db' := (update_issue db existing.id (importUpdatesOf p)).2
      importFirstPass db' rest (mapping ++ [(p.logical_id, existing.id)])
        created (updated + 1)
    | none =>
      let r := create_issue db p.title p.description p.design
        p.acceptance_criteria p.notes p.priority p.issue_type p.assignee
        p.estimated_minutes "markdown_import"
      let db2 := (update_issue r.2 r.1.id
        { markdown_id := some p.logical_id }).2
      importFirstPass db2 rest (mapping ++ [(p.logical_id, r.1.id)])
        (created + 1) updated

/-- `logical_to_physical_mapping.get(...)`; logical ids are unique in a
validated document, so first match equals dict semantics. -/
def lookupMapping (mapping : List (String × String)) (lid : String) :
    Option String :=
  (mapping.find? (fun e => e.1 == lid)).map (·.2)

/-- Second pass of `_import_issues` (markdown_import.py:168-203): parent and
explicit-dependency edges through the normal insertion path; the
circular-dependency ValueError is caught, logged and skipped, every
non-raising call increments the counter. -/
def importSecondPass (mapping : List (String × String)) :
    DB → List ParsedIssue → Nat → DB × Nat
  | db, [], depsCreated => (db, depsCreated)
  | db, p :: rest, depsCreated =>
    match lookupMapping mapping p.logical_id with
    | none => importSecondPass mapping db rest depsCreated
    | some iid =>
      let afterParent : DB × Nat :=
        match p.parent_logical_id with
        | none => (db, depsCreated)
        | some plid =>
          match lookupMapping mapping plid with
          | none => (db, depsCreated)
          | some pid =>
            let r := add_dependency db iid pid DependencyType.PARENT_CHILD
              "markdown_import"
            match r.1 with
            | AddDepResult.cycleError => (r.2, depsCreated)
            | _ => (r.2, depsCreated + 1)
      let afterDeps : DB × Nat :=
        p.dependencies.foldl (fun acc depLid =>
          match lookupMapping mapping depLid with
          | none => acc
          | some depPid =>
            if depPid == iid then acc
            else
              let r := add_dependency acc.1 iid depPid DependencyType.BLOCKS
                "markdown_import"
              match r.1 with
              | AddDepResult.cycleError => (r.2, acc.2)
              | _ => (r.2, acc.2 + 1)) afterParent
      importSecondPass mapping afterDeps.1 rest afterDeps.2

/-- Outcome of the import endpoint. -/
inductive ImportOutcome where
  | emptyContent
  | validationFailed (errors warnings : List String)
  | success (created updated depsCreated processed : Nat)
      (warnings : List String)
  deriving Repr, DecidableEq

/-- `import_markdown` (markdown_import.py:56-104) composed with
`_import_issues`: refuse empty bodies, refuse any document whose parse
reports errors without touching the store, otherwise run the two passes. -/
def importMarkdown (db : DB) (text : String) : ImportOutcome × DB :=
  if pyStrip text == "" then (.emptyContent, db)
  else
    let result := parseMarkdown text
    if !result.errors.isEmpty then
      (.validationFailed result.errors result.warnings, db)
    else
      let fp := importFirstPass db result.issues [] 0 0
      let sp := importSecondPass fp.2.1 fp.1 result.issues 0
      (.success fp.2.2.1 fp.2.2.2 sp.2 result.issues.length result.warnings,
        sp.1)

theorem parsedContains_append (issues : List ParsedIssue) (x : ParsedIssue)
    (lid : String) (h : parsedContains issues lid = true) :
    parsedContains (issues ++ [x]) lid = true := by
  unfold parsedContains findParsed at h ⊢
  rw [List.find?_append]
  rcases hf : issues.find? (fun p => p.logical_id == lid) with _ | v
  · rw [hf] at h
    simp at h
  · rw [hf]
    rfl

theorem matchIssueLine_not_skipped (l : String) (x : Nat × String × String × Option String)
    (h : matchIssueLine l = some x) :
    (l == "" || l.data.head? == some '#') = false := by
  rcases hd : l.data with _ | ⟨c, cs⟩
  · exfalso
    rw [matchIssueLine, hd] at h
    simp at h
  · have hne : ¬ (l = "") := by
      intro he
      rw [he] at hd
      simp at hd
    by_cases hc : c = '#'
    · exfalso
      subst hc
      rw [matchIssueLine, hd] at h
      have : isPySpace '#' = false := by decide
      rw [List.takeWhile_cons, List.dropWhile_cons] at h
      simp [this] at h
    · simp [hne, hd, hc]

/-- Processing one line leaves the previous errors as a prefix and only
appends to the issue table. -/
theorem parseStructureLine_step (ps : ParseState) (stack : List (String × Nat))
    (n : Nat) (l : String) :
    (∃ et, (parseStructureLine ps stack n l).1.errors = ps.errors ++ et) ∧
    (∀ lid, parsedContains ps.issues lid = true →
      parsedContains (parseStructureLine ps stack n l).1.issues lid = true) := by
  simp only [parseStructureLine]
  split
  · exact ⟨⟨[], by simp⟩, fun lid h => h⟩
  · split
    · exact ⟨⟨[], by simp⟩, fun lid h => h⟩
    · split
      · exact ⟨⟨_, rfl⟩, fun lid h => h⟩
      · split
        · exact ⟨⟨_, rfl⟩, fun lid h => h⟩
        · split
          · exact ⟨⟨_, rfl⟩, fun lid h => h⟩
          · refine ⟨⟨[], by simp⟩, fun lid h => ?_⟩
            exact parsedContains_append _ _ _ h

/-- Processing a line that matches the outline pattern either reports an
error or leaves the table containing the line's stripped id. -/
theorem parseStructureLine_match (ps : ParseState) (stack : List (String × Nat))
    (n : Nat) (l : String) (ind : Nat) (rid ti : String) (pa : Option String)
    (hm : matchIssueLine (pyRstrip l) = some (ind, rid, ti, pa)) :
    (∃ et, et ≠ [] ∧ (parseStructureLine ps stack n l).1.errors = ps.errors ++ et) ∨
    parsedContains (parseStructureLine ps stack n l).1.issues (pyStrip rid) = true := by
  have hskip := matchIssueLine_not_skipped (pyRstrip l) _ hm
  simp only [parseStructureLine, hskip, Bool.false_eq_true, if_false, hm]
  by_cases h1 : (pyStrip rid == "") = true
  · rw [if_pos h1]
    exact Or.inl ⟨_, by simp, rfl⟩
  · rw [if_neg h1]
    by_cases h2 : parsedContains ps.issues (pyStrip rid) = true
    · rw [if_pos h2]
      exact Or.inl ⟨_, by simp, rfl⟩
    · rw [if_neg h2]
      by_cases h3 : (pyStrip ti == "") = true
      · rw [if_pos h3]
        exact Or.inl ⟨_, by simp, rfl⟩
      · rw [if_neg h3]
        refine Or.inr ?_
        simp only [parsedContains, findParsed]
        rw [List.find?_append]
        rcases hf : ps.issues.find? (fun p => p.logical_id == pyStrip rid) with _ | v
        · rw [hf]
          simp [Option.or]
        · rw [hf]
          rfl

/-- Processing a matching line whose stripped id is already in the table
always reports an error (an empty id or the duplicate-id error). -/
theorem parseStructureLine_dup (ps : ParseState) (stack : List (String × Nat))
    (n : Nat) (l : String) (ind : Nat) (rid ti : String) (pa : Option String)
    (hm : matchIssueLine (pyRstrip l) = some (ind, rid, ti, pa))
    (hc : parsedContains ps.issues (pyStrip rid) = true) :
    ∃ et, et ≠ [] ∧ (parseStructureLine ps stack n l).1.errors = ps.errors ++ et := by
  have hskip := matchIssueLine_not_skipped (pyRstrip l) _ hm
  simp only [parseStructureLine, hskip, Bool.false_eq_true, if_false, hm]
  by_cases h1 : (pyStrip rid == "") = true
  · rw [if_pos h1]
    exact ⟨_, by simp, rfl⟩
  · rw [if_neg h1, if_pos hc]
    exact ⟨_, by simp, rfl⟩

theorem parseStructureLines_cons (l : String) (rest : List String) (n : Nat)
    (ps : ParseState) (stack : List (String × Nat)) :
    parseStructureLines (l :: rest) n ps stack =
      parseStructureLines rest (n + 1) (parseStructureLine ps stack n l).1
        (parseStructureLine ps stack n l).2 := rfl

theorem parseStructureLines_errors_prefix (lines : List String) :
    ∀ n ps stack, ∃ t,
      (parseStructureLines lines n ps stack).errors = ps.errors ++ t := by
  induction lines with
  | nil => exact fun n ps stack => ⟨[], by simp [parseStructureLines]⟩
  | cons l rest ih =>
    intro n ps stack
    rw [parseStructureLines_cons]
    obtain ⟨et, het⟩ := (parseStructureLine_step ps stack n l).1
    obtain ⟨t, ht⟩ := ih (n + 1) (parseStructureLine ps stack n l).1
      (parseStructureLine ps stack n l).2
    exact ⟨et ++ t, by rw [ht, het, List.append_assoc]⟩

theorem parseStructureLines_errors_nonempty (lines : List String) :
    ∀ n ps stack, ps.errors ≠ [] →
      (parseStructureLines lines n ps stack).errors ≠ [] := by
  intro n ps stack h
  obtain ⟨t, ht⟩ := parseStructureLines_errors_prefix lines n ps stack
  rw [ht]
  simp [h]

/-- If some later line matches the pattern with an id already in the table,
the loop ends with at least one error. -/
theorem parseStructureLines_clash (lines : List String) :
    ∀ n ps stack,
      (∃ b ∈ lines, ∃ ind rid ti pa,
        matchIssueLine (pyRstrip b) = some (ind, rid, ti, pa) ∧
        parsedContains ps.issues (pyStrip rid) = true) →
      (parseStructureLines lines n ps stack).errors ≠ [] := by
  induction lines with
  | nil => rintro n ps stack ⟨b, hb, _⟩; cases hb
  | cons l rest ih =>
    rintro n ps stack ⟨b, hb, ind, rid, ti, pa, hm, hc⟩
    rw [parseStructureLines_cons]
    rcases List.mem_cons.mp hb with rfl | hb
    · obtain ⟨et, hne, het⟩ := parseStructureLine_dup ps stack n b ind rid ti pa hm hc
      refine parseStructureLines_errors_nonempty rest (n + 1) _ _ ?_
      rw [het]
      simp [hne]
    · refine ih (n + 1) _ _ ⟨b, hb, ind, rid, ti, pa, hm, ?_⟩
      exact (parseStructureLine_step ps stack n l).2 _ hc

/-- Two outline lines with the same stripped logical id force at least one
parse error. -/
theorem parseStructureLines_duplicate (l1 : List String) :
    ∀ (a : String) (l2 : List String) (n : Nat) (ps : ParseState)
      (stack : List (String × Nat)) (ind1 : Nat) (rid1 ti1 : String)
      (pa1 : Option String) (b : String) (ind2 : Nat) (rid2 ti2 : String)
      (pa2 : Option String),
      matchIssueLine (pyRstrip a) = some (ind1, rid1, ti1, pa1) →
      b ∈ l2 →
      matchIssueLine (pyRstrip b) = some (ind2, rid2, ti2, pa2) →
      pyStrip rid1 = pyStrip rid2 →
      (parseStructureLines (l1 ++ a :: l2) n ps stack).errors ≠ [] := by
  induction l1 with
  | nil =>
    intro a l2 n ps stack ind1 rid1 ti1 pa1 b ind2 rid2 ti2 pa2 hma hb hmb hstrip
    rw [List.nil_append, parseStructureLines_cons]
    rcases parseStructureLine_match ps stack n a ind1 rid1 ti1 pa1 hma with
      ⟨et, hne, het⟩ | hcont
    · refine parseStructureLines_errors_nonempty l2 (n + 1) _ _ ?_
      rw [het]
      simp [hne]
    · refine parseStructureLines_clash l2 (n + 1) _ _ ?_
      exact ⟨b, hb, ind2, rid2, ti2, pa2, hmb, hstrip ▸ hcont⟩
  | cons c l1' ih =>
    intro a l2 n ps stack ind1 rid1 ti1 pa1 b ind2 rid2 ti2 pa2 hma hb hmb hstrip
    rw [List.cons_append, parseStructureLines_cons]
    exact ih a l2 (n + 1) _ _ ind1 rid1 ti1 pa1 b ind2 rid2 ti2 pa2 hma hb hmb hstrip

/-- C8: the import endpoint is all-or-nothing at the validation gate: a
(non-empty) document whose parse reports any error is refused with the
parse's error list and the store is returned unchanged; in particular a
document whose structure section contains two outline lines carrying the
same stripped logical id always parses with at least one error, so its
re-import attempt is refused with zero side effects. -/
theorem import_validation_gate (db : DB) (text : String) :
    (pyStrip text ≠ "" → (parseMarkdown text).errors ≠ [] →
      importMarkdown db text =
        (ImportOutcome.validationFailed (parseMarkdown text).errors
          (parseMarkdown text).warnings, db)) ∧
    (∀ (s : Nat) (l1 l2 : List String) (a b : String) (ind1 : Nat)
        (rid1 ti1 : String) (pa1 : Option String) (ind2 : Nat)
        (rid2 ti2 : String) (pa2 : Option String),
      pyStrip text ≠ "" →
      findSectionStart (splitLines text) "Issues Structure" = some s →
      ((splitLines text).take
          ((findSectionStart (splitLines text) "Detailed Content").getD
            (splitLines text).length)).drop s = l1 ++ a :: l2 →
      matchIssueLine (pyRstrip a) = some (ind1, rid1, ti1, pa1) →
      b ∈ l2 →
      matchIssueLine (pyRstrip b) = some (ind2, rid2, ti2, pa2) →
      pyStrip rid1 = pyStrip rid2 →
      (parseMarkdown text).errors ≠ [] ∧
      importMarkdown db text =
        (ImportOutcome.validationFailed (parseMarkdown text).errors
          (parseMarkdown text).warnings, db)) := by
  have gate : pyStrip text ≠ "" → (parseMarkdown text).errors ≠ [] →
      importMarkdown db text =
        (ImportOutcome.validationFailed (parseMarkdown text).errors
          (parseMarkdown text).warnings, db) := by
    intro hne herr
    simp only [importMarkdown]
    rw [if_neg (by simpa using hne), if_pos (by simpa using herr)]
  refine ⟨gate, ?_⟩
  intro s l1 l2 a b ind1 rid1 ti1 pa1 ind2 rid2 ti2 pa2 hne hs hdecomp hma hb hmb hstrip
  have hpe : (parseMarkdown text).errors =
      (parseStructureLines
        (((splitLines text).take
          ((findSectionStart (splitLines text) "Detailed Content").getD
            (splitLines text).length)).drop s) 1 {} []).errors ++
        validateIssues (parseMarkdown text).issues := by
    simp only [parseMarkdown, hs]
  rw [hdecomp] at hpe
  have hst := parseStructureLines_duplicate l1 a l2 1 {} [] ind1 rid1 ti1 pa1
    b ind2 rid2 ti2 pa2 hma hb hmb hstrip
  have herr : (parseMarkdown text).errors ≠ [] := by
    intro h
    rw [hpe] at h
    exact hst (List.append_eq_nil.mp h).1
  exact ⟨herr, gate hne herr⟩

/-- Duplicate-id document for the C8 witness. -/
def dupDoc : String := "# Issues Structure\n- [A] First\n- [A] Second"

/-- A store with one issue, to exhibit that the refused import leaves a
non-trivial store untouched. -/
def c8db : DB := { issues := [exIssue "x" .OPEN], deps := [] }

/-- Witness for C8 at a concrete duplicate-id document. -/
theorem import_validation_gate_witness :
    (pyStrip dupDoc ≠ "" ∧
     findSectionStart (splitLines dupDoc) "Issues Structure" = some 1 ∧
     ((splitLines dupDoc).take
        ((findSectionStart (splitLines dupDoc) "Detailed Content").getD
          (splitLines dupDoc).length)).drop 1 =
       [] ++ "- [A] First" :: ["- [A] Second"] ∧
     matchIssueLine (pyRstrip "- [A] First") = some (0, "A", "First", none) ∧
     "- [A] Second" ∈ ["- [A] Second"] ∧
     matchIssueLine (pyRstrip "- [A] Second") = some (0, "A", "Second", none) ∧
     pyStrip "A" = pyStrip "A") ∧
    ((parseMarkdown dupDoc).errors ≠ [] ∧
     importMarkdown c8db dupDoc =
       (ImportOutcome.validationFailed (parseMarkdown dupDoc).errors
         (parseMarkdown dupDoc).warnings, c8db)) :=
  ⟨⟨by decide, by decide, by decide, by decide, by decide, by decide, rfl⟩,
    (import_validation_gate c8db dupDoc).2 1 [] ["- [A] Second"]
      "- [A] First" "- [A] Second" 0 "A" "First" none 0 "A" "Second" none
      (by decide) (by decide) (by decide) (by decide) (by decide) (by decide) rfl⟩

theorem freshMarker_inj : Function.Injective freshMarker := by
  intro a b h
  have hd := congrArg String.data h
  simp only [freshMarker] at hd
  have hlen := congrArg List.length hd
  simpa using hlen

theorem pickFresh_not_mem (db : DB) : pickFresh db ∉ db.issues.map (·.id) := by
  simp only [pickFresh]
  rcases hf : ((List.range (db.issues.length + 1)).map
      (fun k => freshMarker (db.nextId + k))).find?
      (fun s => !((db.issues.map (·.id)).contains s)) with _ | c
  · exfalso
    have hall := List.find?_eq_none.mp hf
    have hsub : ∀ s ∈ (List.range (db.issues.length + 1)).map
        (fun k => freshMarker (db.nextId + k)), s ∈ db.issues.map (·.id) := by
      intro s hs
      have := hall s hs
      simpa [List.elem_iff] using this
    have hnd : ((List.range (db.issues.length + 1)).map
        (fun k => freshMarker (db.nextId + k))).Nodup := by
      refine List.Nodup.map ?_ (List.nodup_range _)
      intro a b hab
      exact Nat.add_left_cancel (freshMarker_inj hab)
    have h1 : ((List.range (db.issues.length + 1)).map
        (fun k => freshMarker (db.nextId + k))).toFinset ⊆
        (db.issues.map (·.id)).toFinset := by
      intro x hx
      rw [List.mem_toFinset] at hx ⊢
      exact hsub x hx
    have h2 := Finset.card_le_card h1
    rw [List.card_toFinset, List.card_toFinset] at h2
    rw [List.dedup_eq_self.mpr hnd] at h2
    have h3 : (db.issues.map (·.id)).dedup.length ≤
        (db.issues.map (·.id)).length :=
      List.Sublist.length_le (List.dedup_sublist _)
    simp only [List.length_map, List.length_range] at h2 h3 ⊢
    omega
  · rw [hf]
    have hpred := List.find?_some hf
    rw [Bool.not_eq_true'] at hpred
    intro hmem
    rw [← List.elem_iff] at hmem
    exact absurd hmem (by simp [List.contains] at hpred ⊢; exact hpred)

theorem find?_map_congr {α : Type} (l : List α) (φ : α → α) (p : α → Bool)
    (h : ∀ i ∈ l, p (φ i) = p i ∧ (p i = true → φ i = i)) :
    (l.map φ).find? p = l.find? p := by
  induction l with
  | nil => rfl
  | cons a t ih =>
    obtain ⟨h1, h2⟩ := h a (List.mem_cons_self a t)
    rw [List.map_cons]
    rcases hpa : p a with _ | _
    · rw [List.find?_cons_of_neg _ (by rw [h1, hpa]; simp),
        List.find?_cons_of_neg _ (by rw [hpa]; simp)]
      exact ih (fun i hi => h i (List.mem_cons_of_mem a hi))
    · rw [List.find?_cons_of_pos _ (by rw [h1, hpa]),
        List.find?_cons_of_pos _ (by rw [hpa]), h2 hpa]

theorem applyUpdates_id (i : Issue) (u : IssueUpdates) :
    (applyUpdates i u).id = i.id := rfl

theorem findExisting_spec (db : DB) (lid : String) (e : Issue)
    (h : findExistingIssueByMarkdownId db lid = some e) :
    e ∈ db.issues ∧ e.markdown_id = some lid := by
  refine ⟨List.mem_of_find?_eq_some h, ?_⟩
  have := List.find?_some h
  simpa using this

theorem add_dependency_issues (db : DB) (f t : String) (ty : DependencyType)
    (actor : String) : (add_dependency db f t ty actor).2.issues = db.issues := by
  unfold add_dependency
  split
  · rfl
  · split
    · rfl
    · split
      · rfl
      · rfl

theorem importSecondPass_issues (ps : List ParsedIssue)
    (mapping : List (String × String)) :
    ∀ (db : DB) (k : Nat), (importSecondPass mapping db ps k).1.issues = db.issues := by
  induction ps with
  | nil => intro db k; rfl
  | cons p rest ih =>
    intro db k
    rw [importSecondPass]
    rcases hlk : lookupMapping mapping p.logical_id with _ | iid
    · exact ih db k
    · simp only [hlk]
      have hparent : ∀ (d0 : DB) (k0 : Nat),
          ((match p.parent_logical_id with
            | none => (d0, k0)
            | some plid =>
              match lookupMapping mapping plid with
              | none => (d0, k0)
              | some pid =>
                let r := add_dependency d0 iid pid DependencyType.PARENT_CHILD
                  "markdown_import"
                match r.1 with
                | AddDepResult.cycleError => (r.2, k0)
                | _ => (r.2, k0 + 1)) : DB × Nat).1.issues = d0.issues := by
        intro d0 k0
        rcases p.parent_logical_id with _ | plid
        · rfl
        · rcases hl2 : lookupMapping mapping plid with _ | pid
          · simp [hl2]
          · simp only [hl2]
            rcases hres : (add_dependency d0 iid pid DependencyType.PARENT_CHILD
                "markdown_import").1 with _ | d | _ | d <;>
              simp [hres, add_dependency_issues]
      have hfold : ∀ (deps : List String) (acc : DB × Nat),
          (deps.foldl (fun acc depLid =>
            match lookupMapping mapping depLid with
            | none => acc
            | some depPid =>
              if depPid == iid then acc
              else
                let r := add_dependency acc.1 iid depPid DependencyType.BLOCKS
                  "markdown_import"
                match r.1 with
                | AddDepResult.cycleError => (r.2, acc.2)
                | _ => (r.2, acc.2 + 1)) acc).1.issues = acc.1.issues := by
        intro deps
        induction deps with
        | nil => intro acc; rfl
        | cons d ds ihd =>
          intro acc
          rw [List.foldl_cons, ihd]
          rcases hl2 : lookupMapping mapping d with _ | depPid
          · simp [hl2]
          · simp only [hl2]
            by_cases hdp : (depPid == iid) = true
            · simp [hdp]
            · rw [if_neg hdp]
              rcases hres : (add_dependency acc.1 iid depPid DependencyType.BLOCKS
                  "markdown_import").1 with _ | e | _ | e <;>
                simp [hres, add_dependency_issues]
      rw [ih, hfold, hparent]

theorem find?_id_of_mem (l : List Issue) (hnd : (l.map (·.id)).Nodup)
    (e : Issue) (he : e ∈ l) :
    l.find? (fun i => i.id == e.id) = some e := by
  induction l with
  | nil => cases he
  | cons a t ih =>
    rcases List.mem_cons.mp he with rfl | ht
    · rw [List.find?_cons_of_pos _ (by simp)]
    · rw [List.map_cons, List.nodup_cons] at hnd
      have hne : a.id ≠ e.id := by
        intro hcontra
        exact hnd.1 (hcontra ▸ List.mem_map.mpr ⟨e, ht, rfl⟩)
      rw [List.find?_cons_of_neg _ (by simp [hne])]
      exact ih hnd.2 ht

theorem update_issue_issues (db : DB) (iid : String) (u : IssueUpdates)
    (j : Issue) (hj : findIssue db iid = some j) :
    (update_issue db iid u).2.issues =
      db.issues.map (fun i => if i.id == iid then applyUpdates i u else i) := by
  rw [update_issue, hj]

theorem map_update_ids (l : List Issue) (iid : String) (u : IssueUpdates) :
    ((l.map (fun i => if i.id == iid then applyUpdates i u else i)).map (·.id)) =
      l.map (·.id) := by
  rw [List.map_map]
  apply List.map_congr_left
  intro i _
  show (if i.id == iid then applyUpdates i u else i).id = i.id
  split
  · exact applyUpdates_id i _
  · rfl

theorem applyUpdates_markdown_import (i : Issue) (p : ParsedIssue) :
    (applyUpdates i (importUpdatesOf p)).markdown_id = some p.logical_id := rfl

theorem applyUpdates_title_import (i : Issue) (p : ParsedIssue) :
    (applyUpdates i (importUpdatesOf p)).title = p.title := rfl

theorem findExisting_update_stable (db : DB) (p : ParsedIssue) (e : Issue)
    (hids : (db.issues.map (·.id)).Nodup)
    (he : findExistingIssueByMarkdownId db p.logical_id = some e)
    (lid' : String) (hne : lid' ≠ p.logical_id) :
    (db.issues.map (fun i =>
      if i.id == e.id then applyUpdates i (importUpdatesOf p) else i)).find?
        (fun i => i.markdown_id == some lid') =
      db.issues.find? (fun i => i.markdown_id == some lid') := by
  obtain ⟨hmem, hmid⟩ := findExisting_spec db p.logical_id e he
  apply find?_map_congr
  intro i hi
  by_cases hid : (i.id == e.id) = true
  · have hie : i = e :=
      List.inj_on_of_nodup_map hids hi hmem (by simpa using hid)
    subst hie
    rw [if_pos hid]
    constructor
    · rw [applyUpdates_markdown_import, hmid]
    · intro hp
      exfalso
      rw [hmid] at hp
      simp at hp
      exact hne hp.symm
  · rw [if_neg hid]
    exact ⟨rfl, fun _ => rfl⟩

/-- The issue created and stamped for an unmatched parsed node. -/
def stampNew (db : DB) (p : ParsedIssue) : Issue :=
  { id := pickFresh db, title := p.title, description := p.description,
    design := p.design, acceptance_criteria := p.acceptance_criteria,
    notes := p.notes, status := .OPEN, priority := p.priority,
    issue_type := p.issue_type, assignee := p.assignee,
    estimated_minutes := p.estimated_minutes,
    markdown_id := some p.logical_id, closed_at := none }

theorem create_stamp_issues (db : DB) (p : ParsedIssue) :
    ((update_issue
        (create_issue db p.title p.description p.design p.acceptance_criteria
          p.notes p.priority p.issue_type p.assignee p.estimated_minutes
          "markdown_import").2
        (create_issue db p.title p.description p.design p.acceptance_criteria
          p.notes p.priority p.issue_type p.assignee p.estimated_minutes
          "markdown_import").1.id
        { markdown_id := some p.logical_id }).2).issues =
      db.issues ++ [stampNew db p] := by
  have hfresh := pickFresh_not_mem db
  have hnone : db.issues.find? (fun i => i.id == pickFresh db) = none := by
    rw [List.find?_eq_none]
    intro i hi
    simp only [beq_iff_eq]
    intro hcontra
    exact hfresh (hcontra ▸ List.mem_map.mpr ⟨i, hi, rfl⟩)
  have hnewid : (create_issue db p.title p.description p.design
      p.acceptance_criteria p.notes p.priority p.issue_type p.assignee
      p.estimated_minutes "markdown_import").1.id = pickFresh db := rfl
  have hfind : findIssue
      (create_issue db p.title p.description p.design p.acceptance_criteria
        p.notes p.priority p.issue_type p.assignee p.estimated_minutes
        "markdown_import").2 (pickFresh db) =
      some (create_issue db p.title p.description p.design p.acceptance_criteria
        p.notes p.priority p.issue_type p.assignee p.estimated_minutes
        "markdown_import").1 := by
    show ((db.issues ++ [_]).find? _) = _
    rw [List.find?_append, hnone]
    rw [List.find?_cons_of_pos _ (by simp [hnewid])]
    rfl
  rw [hnewid, update_issue_issues _ _ _ _ hfind]
  show (db.issues ++ [_]).map _ = _
  rw [List.map_append]
  congr 1
  · conv_rhs => rw [(List.map_id db.issues).symm]
    apply List.map_congr_left
    intro i hi
    show (if i.id == pickFresh db then _ else i) = i
    rw [if_neg]
    intro hcontra
    rw [beq_iff_eq] at hcontra
    exact hfresh (hcontra ▸ List.mem_map.mpr ⟨i, hi, rfl⟩)
  · simp only [List.map_cons, List.map_nil, beq_self_eq_true, if_true]
    rfl

theorem findExisting_append_fresh (db : DB) (p : ParsedIssue) (lid' : String)
    (hne : lid' ≠ p.logical_id) :
    (db.issues ++ [stampNew db p]).find? (fun i => i.markdown_id == some lid') =
      db.issues.find? (fun i => i.markdown_id == some lid') := by
  have hpred : ¬((stampNew db p).markdown_id == some lid') = true := by
    simp only [stampNew, Option.some.injEq, beq_iff_eq]
    exact fun h => hne h.symm
  have h2 : List.find? (fun i => i.markdown_id == some lid')
      [stampNew db p] = none := by
    rw [List.find?_eq_none]
    intro x hx
    rw [List.mem_singleton] at hx
    subst hx
    exact hpred
  rw [List.find?_append, h2]
  cases db.issues.find? (fun i => i.markdown_id == some lid') <;> rfl

/-- Full characterisation of the first import pass: ids stay duplicate-free,
items matching no logical id survive untouched, a matched item is rewritten in
place by the node's fields, an unmatched node yields a new stamped item with a
fresh id, and the length and created/updated counters follow the number of
unmatched and matched nodes. -/
theorem importFirstPass_spec (ps : List ParsedIssue) :
    ∀ (db : DB) (mapping : List (String × String)) (c u : Nat),
      (db.issues.map (·.id)).Nodup →
      (ps.map (·.logical_id)).Nodup →
      ((importFirstPass db ps mapping c u).1.issues.map (·.id)).Nodup ∧
      (∀ i ∈ db.issues, (∀ p ∈ ps, i.markdown_id ≠ some p.logical_id) →
        i ∈ (importFirstPass db ps mapping c u).1.issues) ∧
      (∀ p ∈ ps, ∀ e, findExistingIssueByMarkdownId db p.logical_id = some e →
        applyUpdates e (importUpdatesOf p) ∈
          (importFirstPass db ps mapping c u).1.issues) ∧
      (∀ p ∈ ps, findExistingIssueByMarkdownId db p.logical_id = none →
        ∃ i' ∈ (importFirstPass db ps mapping c u).1.issues,
          i'.markdown_id = some p.logical_id ∧ i'.title = p.title ∧
          i'.id ∉ db.issues.map (·.id)) ∧
      (importFirstPass db ps mapping c u).1.issues.length =
        db.issues.length + (ps.filter (fun p =>
          (findExistingIssueByMarkdownId db p.logical_id).isNone)).length ∧
      (importFirstPass db ps mapping c u).2.2.1 =
        c + (ps.filter (fun p =>
          (findExistingIssueByMarkdownId db p.logical_id).isNone)).length ∧
      (importFirstPass db ps mapping c u).2.2.2 =
        u + (ps.filter (fun p =>
          (findExistingIssueByMarkdownId db p.logical_id).isSome)).length := by
  induction ps with
  | nil =>
    intro db mapping c u hids _
    refine ⟨hids, ?_, ?_, ?_, ?_, ?_, ?_⟩ <;> simp [importFirstPass]
  | cons p rest ih =>
    intro db mapping c u hids hlids
    rw [List.map_cons, List.nodup_cons] at hlids
    obtain ⟨hplid, hrlids⟩ := hlids
    have hqne : ∀ q ∈ rest, q.logical_id ≠ p.logical_id := by
      intro q hq hcontra
      exact hplid (List.mem_map.mpr ⟨q, hq, hcontra⟩)
    cases hfe : findExistingIssueByMarkdownId db p.logical_id with
    | some existing =>
      obtain ⟨hexmem, hexmid⟩ := findExisting_spec db p.logical_id existing hfe
      have hfind : findIssue db existing.id = some existing :=
        find?_id_of_mem db.issues hids existing hexmem
      have hiss : ((update_issue db existing.id (importUpdatesOf p)).2).issues =
          db.issues.map (fun i =>
            if i.id == existing.id then applyUpdates i (importUpdatesOf p)
            else i) :=
        update_issue_issues db existing.id (importUpdatesOf p) existing hfind
      have hids' :
          (((update_issue db existing.id (importUpdatesOf p)).2).issues.map
            (·.id)).Nodup := by
        rw [hiss, map_update_ids]
        exact hids
      have hstep : importFirstPass db (p :: rest) mapping c u =
          importFirstPass (update_issue db existing.id (importUpdatesOf p)).2
            rest (mapping ++ [(p.logical_id, existing.id)]) c (u + 1) := by
        rw [importFirstPass, hfe]
      have hstab : ∀ lid', lid' ≠ p.logical_id →
          findExistingIssueByMarkdownId
            (update_issue db existing.id (importUpdatesOf p)).2 lid' =
            findExistingIssueByMarkdownId db lid' := by
        intro lid' hne
        show (((update_issue db existing.id (importUpdatesOf p)).2).issues.find?
          _) = _
        rw [hiss]
        exact findExisting_update_stable db p existing hids hfe lid' hne
      obtain ⟨ihA, ihB, ihC, ihD, ihE, ihF, ihG⟩ :=
        ih (update_issue db existing.id (importUpdatesOf p)).2
          (mapping ++ [(p.logical_id, existing.id)]) c (u + 1) hids' hrlids
      have hfiltN : rest.filter (fun q => (findExistingIssueByMarkdownId
            (update_issue db existing.id (importUpdatesOf p)).2
            q.logical_id).isNone) =
          rest.filter (fun q =>
            (findExistingIssueByMarkdownId db q.logical_id).isNone) :=
        List.filter_congr (fun q hq => by
          rw [hstab q.logical_id (hqne q hq)])
      have hfiltS : rest.filter (fun q => (findExistingIssueByMarkdownId
            (update_issue db existing.id (importUpdatesOf p)).2
            q.logical_id).isSome) =
          rest.filter (fun q =>
            (findExistingIssueByMarkdownId db q.logical_id).isSome) :=
        List.filter_congr (fun q hq => by
          rw [hstab q.logical_id (hqne q hq)])
      have hfcN : ((p :: rest).filter (fun q =>
            (findExistingIssueByMarkdownId db q.logical_id).isNone)) =
          rest.filter (fun q =>
            (findExistingIssueByMarkdownId db q.logical_id).isNone) := by
        rw [List.filter_cons]
        simp [hfe]
      have hfcS : ((p :: rest).filter (fun q =>
            (findExistingIssueByMarkdownId db q.logical_id).isSome)) =
          p :: rest.filter (fun q =>
            (findExistingIssueByMarkdownId db q.logical_id).isSome) := by
        rw [List.filter_cons]
        simp [hfe]
    
      rw [hstep]
      refine ⟨ihA, ?_, ?_, ?_, ?_, ?_, ?_⟩
      · intro i hi hnm
        have hne : i.id ≠ existing.id := by
          intro hcontra
          have : i = existing :=
            List.inj_on_of_nodup_map hids hi hexmem (by simpa using hcontra)
          exact hnm p (List.mem_cons_self p rest) (this ▸ hexmid)
        refine ihB i ?_ (fun q hq => hnm q (List.mem_cons_of_mem _ hq))
        rw [hiss]
        refine List.mem_map.mpr ⟨i, hi, ?_⟩
        rw [if_neg (by simpa using hne)]
      · intro p' hp' e hfe'
        rcases List.mem_cons.mp hp' with rfl | hp'r
        · rw [hfe] at hfe'
          have he : existing = e := Option.some.inj hfe'
          subst he
          refine ihB (applyUpdates existing (importUpdatesOf p')) ?_ ?_
          · rw [hiss]
            refine List.mem_map.mpr ⟨existing, hexmem, ?_⟩
            rw [if_pos (by simp)]
          · intro q hq
            rw [applyUpdates_markdown_import]
            intro hc
            exact hqne q hq (Option.some.inj hc).symm
        · have hfe2 : findExistingIssueByMarkdownId
              (update_issue db existing.id (importUpdatesOf p)).2
              p'.logical_id = some e := by
            rw [hstab p'.logical_id (hqne p' hp'r)]
            exact hfe'
          exact ihC p' hp'r e hfe2
      · intro p' hp' hnone
        rcases List.mem_cons.mp hp' with rfl | hp'r
        · rw [hfe] at hnone
          cases hnone
        · have hnone2 : findExistingIssueByMarkdownId
              (update_issue db existing.id (importUpdatesOf p)).2
              p'.logical_id = none := by
            rw [hstab p'.logical_id (hqne p' hp'r)]
            exact hnone
          obtain ⟨i', hi'mem, h1, h2, h3⟩ := ihD p' hp'r hnone2
          rw [hiss, map_update_ids] at h3
          exact ⟨i', hi'mem, h1, h2, h3⟩
      · rw [ihE, hiss, List.length_map, hfiltN, hfcN]
      · rw [ihF, hfiltN, hfcN]
      · rw [ihG, hfiltS, hfcS]
        simp only [List.length_cons]
        omega
    | none =>
      have hcs := create_stamp_issues db p
      have hids2 : ((db.issues ++ [stampNew db p]).map (·.id)).Nodup := by
        rw [List.map_append]
        refine List.Nodup.append hids (List.nodup_singleton _) ?_
        intro a ha hb
        simp only [List.map_cons, List.map_nil, List.mem_singleton] at hb
        subst hb
        exact pickFresh_not_mem db ha
      set db2 := (update_issue
        (create_issue db p.title p.description p.design p.acceptance_criteria
          p.notes p.priority p.issue_type p.assignee p.estimated_minutes
          "markdown_import").2
        (create_issue db p.title p.description p.design p.acceptance_criteria
          p.notes p.priority p.issue_type p.assignee p.estimated_minutes
          "markdown_import").1.id
        { markdown_id := some p.logical_id }).2 with hdb2
      have hstep : importFirstPass db (p :: rest) mapping c u =
          importFirstPass db2 rest
            (mapping ++ [(p.logical_id, pickFresh db)]) (c + 1) u := by
        rw [hdb2, importFirstPass, hfe]
        rfl
      have hstab : ∀ lid', lid' ≠ p.logical_id →
          findExistingIssueByMarkdownId db2 lid' =
            findExistingIssueByMarkdownId db lid' := by
        intro lid' hne
        show (db2.issues.find? _) = _
        rw [hcs]
        exact findExisting_append_fresh db p lid' hne
      obtain ⟨ihA, ihB, ihC, ihD, ihE, ihF, ihG⟩ :=
        ih db2 (mapping ++ [(p.logical_id, pickFresh db)]) (c + 1) u
          (by rw [hcs]; exact hids2) hrlids
      have hfiltN : rest.filter (fun q =>
            (findExistingIssueByMarkdownId db2 q.logical_id).isNone) =
          rest.filter (fun q =>
            (findExistingIssueByMarkdownId db q.logical_id).isNone) :=
        List.filter_congr (fun q hq => by
          rw [hstab q.logical_id (hqne q hq)])
      have hfiltS : rest.filter (fun q =>
            (findExistingIssueByMarkdownId db2 q.logical_id).isSome) =
          rest.filter (fun q =>
            (findExistingIssueByMarkdownId db q.logical_id).isSome) :=
        List.filter_congr (fun q hq => by
          rw [hstab q.logical_id (hqne q hq)])
      have hfcN : ((p :: rest).filter (fun q =>
            (findExistingIssueByMarkdownId db q.logical_id).isNone)) =
          p :: rest.filter (fun q =>
            (findExistingIssueByMarkdownId db q.logical_id).isNone) := by
        rw [List.filter_cons]
        simp [hfe]
      have hfcS : ((p :: rest).filter (fun q =>
            (findExistingIssueByMarkdownId db q.logical_id).isSome)) =
          rest.filter (fun q =>
            (findExistingIssueByMarkdownId db q.logical_id).isSome) := by
        rw [List.filter_cons]
        simp [hfe]
      rw [hstep]
      refine ⟨ihA, ?_, ?_, ?_, ?_, ?_, ?_⟩
      · intro i hi hnm
        refine ihB i ?_ (fun q hq => hnm q (List.mem_cons_of_mem _ hq))
        rw [hcs]
        exact List.mem_append_left _ hi
      · intro p' hp' e hfe'
        rcases List.mem_cons.mp hp' with rfl | hp'r
        · rw [hfe] at hfe'
          cases hfe'
        · have hfe2 : findExistingIssueByMarkdownId db2 p'.logical_id =
              some e := by
            rw [hstab p'.logical_id (hqne p' hp'r)]
            exact hfe'
          exact ihC p' hp'r e hfe2
      · intro p' hp' hnone
        rcases List.mem_cons.mp hp' with rfl | hp'r
        · refine ⟨stampNew db p', ?_, rfl, rfl, pickFresh_not_mem db⟩
          refine ihB (stampNew db p') ?_ ?_
          · rw [hcs]
            exact List.mem_append_right _ (List.mem_singleton.mpr rfl)
          · intro q hq hc
            exact hqne q hq (Option.some.inj hc).symm
        · have hnone2 : findExistingIssueByMarkdownId db2 p'.logical_id =
              none := by
            rw [hstab p'.logical_id (hqne p' hp'r)]
            exact hnone
          obtain ⟨i', hi'mem, h1, h2, h3⟩ := ihD p' hp'r hnone2
          rw [hcs, List.map_append] at h3
          exact ⟨i', hi'mem, h1, h2, fun hin =>
            h3 (List.mem_append_left _ hin)⟩
      · rw [ihE, hcs, List.length_append, hfiltN, hfcN]
        simp only [List.length_cons, List.length_nil]
        omega
      · rw [ihF, hfiltN, hfcN]
        simp only [List.length_cons, List.length_nil]
        omega
      · rw [ihG, hfiltS, hfcS]

end Aitrac

namespace Aitrac

example :
    isIssueReady { issues := [exIssue "a" .OPEN], deps := [] } (exIssue "a" .OPEN) = true := by
  decide

example :
    isIssueReady
      { issues := [exIssue "a" .OPEN, exIssue "b" .OPEN],
        deps := [{ issue_id := "a", depends_on_id := "b", type := .BLOCKS }] }
      (exIssue "a" .OPEN) = false := by
  decide

/-- C3: for every sequence of `AddDependency` calls starting from a
same-type-acyclic graph, every single-type subgraph stays acyclic; a call
whose edge would close a same-type cycle leaves the stored edge set
unchanged and (when both endpoints exist in an acyclic graph) reports the
circular-dependency error; and the cycle test is exactly reachability from
`to` back to `from` over edges of the checked type scope. -/
theorem sameType_acyclicity_invariant
    (db0 : DB) (calls : List (String × String × DependencyType))
    (h0 : ∀ ty, TypeAcyclic db0 ty) :
    (∀ ty, TypeAcyclic
        (applyOps db0 (calls.map (fun c => GraphOp.add c.1 c.2.1 c.2.2))) ty) ∧
    (∀ (db : DB) (f t : String) (ty : DependencyType) (actor : String),
        wouldCreateCycle db f t [ty] = true →
          (add_dependency db f t ty actor).2 = db ∧
          (TypeAcyclic db ty → (findIssue db f).isSome → (findIssue db t).isSome →
            (add_dependency db f t ty actor).1 = AddDepResult.cycleError)) ∧
    (∀ (db : DB) (types : List DependencyType) (f t : String),
        wouldCreateCycle db f t types = true ↔ Reaches db types t f) := by
  refine ⟨?_, ?_, ?_⟩
  · exact applyOps_preserves_typeAcyclic _ db0 h0
  · intro db f t ty actor hcyc
    exact ⟨add_dependency_deps_unchanged_of_cycle db f t ty actor hcyc,
      fun hacy hf ht => add_dependency_cycle_outcome db f t ty actor hacy hf ht hcyc⟩
  · exact fun db types f t => wouldCreateCycle_iff db types f t

/-- Witness for C3 at the empty store and a single `AddDependency` call. -/
theorem sameType_acyclicity_invariant_witness :
    (∀ ty, TypeAcyclic
        (applyOps ⟨[], [], 0⟩
          ([("a", "b", DependencyType.BLOCKS)].map
            (fun c => GraphOp.add c.1 c.2.1 c.2.2))) ty) ∧
    (∀ (db : DB) (f t : String) (ty : DependencyType) (actor : String),
        wouldCreateCycle db f t [ty] = true →
          (add_dependency db f t ty actor).2 = db ∧
          (TypeAcyclic db ty → (findIssue db f).isSome → (findIssue db t).isSome →
            (add_dependency db f t ty actor).1 = AddDepResult.cycleError)) ∧
    (∀ (db : DB) (types : List DependencyType) (f t : String),
        wouldCreateCycle db f t types = true ↔ Reaches db types t f) :=
  sameType_acyclicity_invariant ⟨[], [], 0⟩ [("a", "b", DependencyType.BLOCKS)]
    (fun ty => typeAcyclic_of_deps_nil rfl ty)

/-- Store obtained from three issues and two `AddDependency` calls that give
the item `c` two different ParentChild parents `a` and `b`. -/
def twoParentsDB : DB :=
  applyOps
    { issues := [exIssue "a" .OPEN, exIssue "b" .OPEN, exIssue "c" .OPEN],
      deps := [] }
    [GraphOp.add "c" "a" DependencyType.PARENT_CHILD,
     GraphOp.add "c" "b" DependencyType.PARENT_CHILD]

theorem twoParentsDB_deps :
    twoParentsDB.deps =
      [{ issue_id := "c", depends_on_id := "a", type := .PARENT_CHILD,
         child_order := 0, created_by := "system" },
       { issue_id := "c", depends_on_id := "b", type := .PARENT_CHILD,
         child_order := 0, created_by := "system" }] := by
  simp [twoParentsDB, applyOps, add_dependency, findIssue, exIssue,
    wouldCreateCycle, wccRelevant, maxChildOrder]
  simp [wccLoop, wccSuccs]

/-- Counterexample to C4 as stated: after two successful `AddDependency`
calls from an empty edge set, item `c` is the `from` of two ParentChild
edges with different `to` — the ParentChild subgraph is not a forest. -/
theorem parentChild_forest_counterexample :
    ∃ d1 ∈ twoParentsDB.deps, ∃ d2 ∈ twoParentsDB.deps,
      d1.type = DependencyType.PARENT_CHILD ∧
      d2.type = DependencyType.PARENT_CHILD ∧
      d1.issue_id = d2.issue_id ∧ d1.depends_on_id ≠ d2.depends_on_id := by
  rw [twoParentsDB_deps]
  refine ⟨_, List.mem_cons_self _ _, _,
    List.mem_cons_of_mem _ (List.mem_cons_self _ _), ?_⟩
  refine ⟨rfl, rfl, rfl, ?_⟩
  decide

/-- C4 amended: every store reachable from an empty edge set by
`AddDependency` calls has an acyclic ParentChild subgraph, but a single
parent per item is not enforced (see the counterexample). -/
theorem parentChild_acyclic_invariant
    (db0 : DB) (h0 : db0.deps = [])
    (calls : List (String × String × DependencyType)) :
    TypeAcyclic (applyOps db0 (calls.map (fun c => GraphOp.add c.1 c.2.1 c.2.2)))
      DependencyType.PARENT_CHILD :=
  applyOps_preserves_typeAcyclic _ db0 (fun ty => typeAcyclic_of_deps_nil h0 ty) _

/-- Witness for the amended C4 on a concrete two-call sequence. -/
theorem parentChild_acyclic_invariant_witness :
    TypeAcyclic
      (applyOps
        { issues := [exIssue "a" .OPEN, exIssue "b" .OPEN, exIssue "c" .OPEN],
          deps := [] }
        ([("c", "a", DependencyType.PARENT_CHILD),
          ("c", "b", DependencyType.PARENT_CHILD)].map
            (fun c => GraphOp.add c.1 c.2.1 c.2.2)))
      DependencyType.PARENT_CHILD :=
  parentChild_acyclic_invariant
    { issues := [exIssue "a" .OPEN, exIssue "b" .OPEN, exIssue "c" .OPEN],
      deps := [] } rfl
    [("c", "a", DependencyType.PARENT_CHILD),
     ("c", "b", DependencyType.PARENT_CHILD)]

end Aitrac

namespace Aitrac

/-- Existing stored item for the concrete C9 scenario: it already carries
logical id "A" from a previous import, with the old title. -/
def c9e : Issue :=
  { exIssue "i-1" Status.OPEN with title := "Old", markdown_id := some "A" }

/-- Store holding the already-imported item. -/
def c9db : DB := { issues := [c9e], deps := [] }

/-- The re-imported node: same logical id "A", changed title. -/
def c9p : ParsedIssue := { logical_id := "A", title := "New" }

/-- The re-imported one-node document. -/
def c9ps : List ParsedIssue := [c9p]

/-- C9: import reconciliation updates in place. For a document whose logical
ids are unique (which validation guarantees) imported into a store with
unique storage ids: a node whose logical id is already carried by a stored
item rewrites that item in place - the result keeps the stored id, takes the
node's title and keeps the logical id stamp; a node matching nothing yields a
new item stamped with the logical id and a fresh storage id; ids stay
duplicate-free and the item count grows exactly by the number of unmatched
nodes, so a full re-import creates no duplicates; the created/updated
counters count the unmatched/matched nodes; the second pass adds only edges,
never touching the item list. -/
theorem import_reconciliation (db : DB) (ps : List ParsedIssue)
    (mapping : List (String × String)) (c u : Nat)
    (hids : (db.issues.map (·.id)).Nodup)
    (hlids : (ps.map (·.logical_id)).Nodup) :
    (∀ p ∈ ps, ∀ e, findExistingIssueByMarkdownId db p.logical_id = some e →
      applyUpdates e (importUpdatesOf p) ∈
        (importFirstPass db ps mapping c u).1.issues ∧
      (applyUpdates e (importUpdatesOf p)).id = e.id ∧
      (applyUpdates e (importUpdatesOf p)).title = p.title ∧
      (applyUpdates e (importUpdatesOf p)).markdown_id = some p.logical_id) ∧
    (∀ p ∈ ps, findExistingIssueByMarkdownId db p.logical_id = none →
      ∃ i' ∈ (importFirstPass db ps mapping c u).1.issues,
        i'.markdown_id = some p.logical_id ∧ i'.title = p.title ∧
        i'.id ∉ db.issues.map (·.id)) ∧
    ((importFirstPass db ps mapping c u).1.issues.map (·.id)).Nodup ∧
    (importFirstPass db ps mapping c u).1.issues.length =
      db.issues.length + (ps.filter (fun p =>
        (findExistingIssueByMarkdownId db p.logical_id).isNone)).length ∧
    (importFirstPass db ps mapping c u).2.2.1 =
      c + (ps.filter (fun p =>
        (findExistingIssueByMarkdownId db p.logical_id).isNone)).length ∧
    (importFirstPass db ps mapping c u).2.2.2 =
      u + (ps.filter (fun p =>
        (findExistingIssueByMarkdownId db p.logical_id).isSome)).length ∧
    (∀ (mapping' : List (String × String)) (dc : Nat),
      (importSecondPass mapping' (importFirstPass db ps mapping c u).1
        ps dc).1.issues = (importFirstPass db ps mapping c u).1.issues) := by
  obtain ⟨hA, hB, hC, hD, hE, hF, hG⟩ :=
    importFirstPass_spec ps db mapping c u hids hlids
  refine ⟨?_, hD, hA, hE, hF, hG, ?_⟩
  · intro p hp e hfe
    exact ⟨hC p hp e hfe, applyUpdates_id e _,
      applyUpdates_title_import e p, applyUpdates_markdown_import e p⟩
  · intro mapping' dc
    exact importSecondPass_issues ps mapping' _ dc

/-- Witness: re-importing the one-node document over the store that already
carries logical id "A" rewrites the item in place - same stored id "i-1",
new title - and the store still holds exactly one item. -/
theorem import_reconciliation_witness :
    ((c9db.issues.map (·.id)).Nodup ∧ (c9ps.map (·.logical_id)).Nodup) ∧
    applyUpdates c9e (importUpdatesOf c9p) ∈
      (importFirstPass c9db c9ps [] 0 0).1.issues ∧
    (applyUpdates c9e (importUpdatesOf c9p)).id = "i-1" ∧
    (applyUpdates c9e (importUpdatesOf c9p)).title = "New" ∧
    (importFirstPass c9db c9ps [] 0 0).1.issues.length = 1 ∧
    (importFirstPass c9db c9ps [] 0 0).2.2.1 = 0 ∧
    (importFirstPass c9db c9ps [] 0 0).2.2.2 = 1 := by
  have h := import_reconciliation c9db c9ps [] 0 0 (by decide) (by decide)
  obtain ⟨h1, _, _, h4, h5, h6, _⟩ := h
  obtain ⟨ha, hb, hc, _⟩ :=
    h1 c9p (List.mem_singleton.mpr rfl) c9e (by decide)
  refine ⟨⟨by decide, by decide⟩, ha, ?_, ?_, ?_, ?_, ?_⟩
  · rw [hb]; decide
  · rw [hc]; decide
  · rw [h4]; decide
  · rw [h5]; decide
  · rw [h6]; decide

end Aitrac

namespace Aitrac

/-- Outgoing Blocks/ParentChild successor ids of `cid`
(dependency_service.py:255-265). -/
def bpSuccs (db : DB) (cid : String) : List String :=
  (db.deps.filter (fun d => d.issue_id == cid &&
    (d.type == DependencyType.BLOCKS ||
      d.type == DependencyType.PARENT_CHILD))).map
    (fun d => d.depends_on_id)

/-- Ids the blocking-path search can ever enqueue: the start plus every
dependency target. -/
def bpRelevant (db : DB) (start : String) : List String :=
  start :: db.deps.map (fun d => d.depends_on_id)

/-- Loop of `DependencyService.find_blocking_path`
(dependency_service.py:211-284): pop the front entry, skip visited ids, mark
the id visited, skip unknown ids, return `path + [issue]` at an open issue
with a non-empty path, skip dependencies of closed issues, otherwise enqueue
the unvisited Blocks/ParentChild targets with the extended path. The
`c ∉ relevant` branch is a termination device never reached from
`find_blocking_path` (every enqueued id is the start or a stored edge
target). -/
def bpLoop (db : DB) (start : String) (relevant : List String) :
    List (String × List Issue) → List String → List Issue
  | [], _ => []
  | (c, path) :: rest, visited =>
    if c ∈ visited then bpLoop db start relevant rest visited
    else if c ∈ relevant then
      match findIssue db c with
      | none => bpLoop db start relevant rest (c :: visited)
      | some issue =>
        if issue.status == Status.OPEN && !path.isEmpty then
          path ++ [issue]
        else if issue.status == Status.CLOSED then
          bpLoop db start relevant rest (c :: visited)
        else
          bpLoop db start relevant
            (rest ++
              ((bpSuccs db c).filter (fun s => decide (s ∉ c :: visited))).map
                (fun s => (s, path ++ [issue])))
            (c :: visited)
    else bpLoop db start relevant rest visited
  termination_by queue visited =>
    ((relevant.filter (fun x => decide (x ∉ visited))).length, queue.length)
  decreasing_by
  all_goals
    first
      | exact Prod.Lex.right _ (Nat.lt_succ_self _)
      | exact Prod.Lex.left _ _ (length_filter_lt_of_mem relevant visited c
          (by assumption) (by assumption))

/-- `DependencyService.find_blocking_path` (dependency_service.py:211-284). -/
def find_blocking_path (db : DB) (issue_id : String) : List Issue :=
  bpLoop db issue_id (bpRelevant db issue_id) [(issue_id, [])] []

theorem bpLoop_nil (db : DB) (start : String) (relevant visited : List String) :
    bpLoop db start relevant [] visited = [] := by
  rw [bpLoop]

theorem bpLoop_skip (db : DB) (start : String) (relevant : List String)
    (c : String) (path : List Issue) (rest : List (String × List Issue))
    (visited : List String) (hvis : c ∈ visited) :
    bpLoop db start relevant ((c, path) :: rest) visited =
      bpLoop db start relevant rest visited := by
  rw [bpLoop, if_pos hvis]

theorem bpLoop_notfound (db : DB) (start : String) (relevant : List String)
    (c : String) (path : List Issue) (rest : List (String × List Issue))
    (visited : List String) (hvis : c ∉ visited) (hrel : c ∈ relevant)
    (hf : findIssue db c = none) :
    bpLoop db start relevant ((c, path) :: rest) visited =
      bpLoop db start relevant rest (c :: visited) := by
  rw [bpLoop, if_neg hvis, if_pos hrel]
  simp only [hf]

theorem bpLoop_ret (db : DB) (start : String) (relevant : List String)
    (c : String) (path : List Issue) (rest : List (String × List Issue))
    (visited : List String) (hvis : c ∉ visited) (hrel : c ∈ relevant)
    (val : Issue) (hf : findIssue db c = some val)
    (hcond : (val.status == Status.OPEN && !path.isEmpty) = true) :
    bpLoop db start relevant ((c, path) :: rest) visited = path ++ [val] := by
  rw [bpLoop, if_neg hvis, if_pos hrel]
  simp only [hf]
  rw [if_pos hcond]

theorem bpLoop_closed (db : DB) (start : String) (relevant : List String)
    (c : String) (path : List Issue) (rest : List (String × List Issue))
    (visited : List String) (hvis : c ∉ visited) (hrel : c ∈ relevant)
    (val : Issue) (hf : findIssue db c = some val)
    (hcond : ¬(val.status == Status.OPEN && !path.isEmpty) = true)
    (hcl : (val.status == Status.CLOSED) = true) :
    bpLoop db start relevant ((c, path) :: rest) visited =
      bpLoop db start relevant rest (c :: visited) := by
  rw [bpLoop, if_neg hvis, if_pos hrel]
  simp only [hf]
  rw [if_neg hcond, if_pos hcl]

theorem bpLoop_expand (db : DB) (start : String) (relevant : List String)
    (c : String) (path : List Issue) (rest : List (String × List Issue))
    (visited : List String) (hvis : c ∉ visited) (hrel : c ∈ relevant)
    (val : Issue) (hf : findIssue db c = some val)
    (hcond : ¬(val.status == Status.OPEN && !path.isEmpty) = true)
    (hcl : ¬(val.status == Status.CLOSED) = true) :
    bpLoop db start relevant ((c, path) :: rest) visited =
      bpLoop db start relevant
        (rest ++
          ((bpSuccs db c).filter (fun s => decide (s ∉ c :: visited))).map
            (fun s => (s, path ++ [val])))
        (c :: visited) := by
  rw [bpLoop, if_neg hvis, if_pos hrel]
  simp only [hf]
  rw [if_neg hcond, if_neg hcl]

/-- A node the search expands: it resolves to a stored issue that is not
closed, and it is either the start (popped with the empty path) or not
open. -/
def BpExpandable (db : DB) (start v : String) : Prop :=
  ∃ i, findIssue db v = some i ∧ i.status ≠ Status.CLOSED ∧
    (v = start ∨ i.status ≠ Status.OPEN)

/-- A node at which the search stops: an open stored issue other than the
start. -/
def BpGood (db : DB) (start w : String) : Prop :=
  w ≠ start ∧ ∃ i, findIssue db w = some i ∧ i.status = Status.OPEN

/-- Ids reachable from the start along Blocks/ParentChild edges through
expandable nodes. -/
inductive ExpandReach (db : DB) (start : String) : String → Prop
  | base : ExpandReach db start start
  | step (v w : String) : ExpandReach db start v → BpExpandable db start v →
      w ∈ bpSuccs db v → ExpandReach db start w

/-- `PathTo db start path v`: `path` is the issue list a valid expansion
chain from the start records upon reaching the id `v` - each step looks up
the current id, requires a non-closed status and (except at the very first
step) a non-open status, appends the looked-up issue and follows one
Blocks/ParentChild edge. -/
inductive PathTo (db : DB) (start : String) : List Issue → String → Prop
  | nil : PathTo db start [] start
  | snoc (path : List Issue) (v : String) (i : Issue) (w : String) :
      PathTo db start path v → findIssue db v = some i →
      i.status ≠ Status.CLOSED → (path = [] ∨ i.status ≠ Status.OPEN) →
      w ∈ bpSuccs db v → PathTo db start (path ++ [i]) w

/-- Expansion chains of a given edge count. -/
inductive ReachN (db : DB) (start : String) : Nat → String → Prop
  | base : ReachN db start 0 start
  | step (n : Nat) (v w : String) (i : Issue) : ReachN db start n v →
      findIssue db v = some i → i.status ≠ Status.CLOSED →
      (n = 0 ∨ i.status ≠ Status.OPEN) → w ∈ bpSuccs db v →
      ReachN db start (n + 1) w

theorem reachN_zero (db : DB) (start v : String)
    (h : ReachN db start 0 v) : v = start := by
  cases h
  rfl

theorem pathTo_reachN (db : DB) (start : String) :
    ∀ path v, PathTo db start path v → ReachN db start path.length v := by
  intro path v h
  induction h with
  | nil => exact ReachN.base
  | snoc path v i w hp hf hcl hop hw ih =>
    rw [List.length_append, List.length_cons, List.length_nil]
    refine ReachN.step path.length v w i ih hf hcl ?_ hw
    rcases hop with h | h
    · exact Or.inl (by rw [h]; rfl)
    · exact Or.inr h

theorem pathTo_nil_inv (db : DB) (start : String) (p : List Issue)
    (v : String) (h : PathTo db start p v) (hp : p = []) : v = start := by
  cases h with
  | nil => rfl
  | snoc path v i w hp' hf hcl hop hw => exact absurd hp (by simp)

theorem pathTo_head (db : DB) (start : String) :
    ∀ path v, PathTo db start path v → ∀ x, path.head? = some x →
      findIssue db start = some x := by
  intro path v h
  induction h with
  | nil => intro x hx; cases hx
  | snoc path v i w hp hf hcl hop hw ih =>
    intro x hx
    cases path with
    | nil =>
      simp only [List.nil_append, List.head?_cons] at hx
      cases hx
      rw [← pathTo_nil_inv db start [] v hp rfl]
      exact hf
    | cons y ys =>
      rw [List.cons_append, List.head?_cons] at hx
      exact ih x (by rw [List.head?_cons]; exact hx)

theorem bpSuccs_relevant (db : DB) (start : String) :
    ∀ c s, s ∈ bpSuccs db c → s ∈ bpRelevant db start := by
  intro c s hs
  rcases List.mem_map.mp hs with ⟨d, hd, rfl⟩
  exact List.mem_cons_of_mem _
    (List.mem_map.mpr ⟨d, List.mem_of_mem_filter hd, rfl⟩)

theorem bpLoop_sound_aux (db : DB) (start : String) (relevant : List String)
    (hsucc : ∀ c s, s ∈ bpSuccs db c → s ∈ relevant) :
    ∀ queue visited,
      (∀ e ∈ queue, e.1 ∈ relevant) →
      (∀ e ∈ queue, PathTo db start e.2 e.1) →
      (start ∈ visited ∨ (visited = [] ∧ queue = [(start, [])])) →
      bpLoop db start relevant queue visited ≠ [] →
      ∃ path c issue, bpLoop db start relevant queue visited = path ++ [issue] ∧
        PathTo db start path c ∧ findIssue db c = some issue ∧
        issue.status = Status.OPEN ∧ path ≠ [] ∧ c ≠ start := by
  intro queue visited
  induction queue, visited using bpLoop.induct db start relevant with
  | case1 visited =>
    intro _ _ _ hres
    exact absurd (bpLoop_nil db start relevant visited) hres
  | case2 c path rest visited hvis ih =>
    intro hQ1 hQ2 hst hres
    rw [bpLoop_skip db start relevant c path rest visited hvis] at hres ⊢
    refine ih (fun e he => hQ1 e (List.mem_cons_of_mem _ he))
      (fun e he => hQ2 e (List.mem_cons_of_mem _ he)) ?_ hres
    rcases hst with h | ⟨hv, hq⟩
    · exact Or.inl h
    · rw [hv] at hvis
      cases hvis
  | case3 c path rest visited hvis hrel hf ih =>
    intro hQ1 hQ2 hst hres
    rw [bpLoop_notfound db start relevant c path rest visited hvis hrel hf]
      at hres ⊢
    refine ih (fun e he => hQ1 e (List.mem_cons_of_mem _ he))
      (fun e he => hQ2 e (List.mem_cons_of_mem _ he)) ?_ hres
    rcases hst with h | ⟨hv, hq⟩
    · exact Or.inl (List.mem_cons_of_mem _ h)
    · injection hq with h1 _
      injection h1 with h1a _
      refine Or.inl ?_
      rw [h1a]
      exact List.mem_cons_self _ _
  | case4 c path rest visited hvis hrel val hf hcond =>
    intro hQ1 hQ2 hst hres
    rw [bpLoop_ret db start relevant c path rest visited hvis hrel val hf hcond]
    have hopen : val.status = Status.OPEN := by
      have := (Bool.and_eq_true _ _).mp hcond
      exact beq_iff_eq.mp this.1
    have hpne : path ≠ [] := by
      have := (Bool.and_eq_true _ _).mp hcond
      intro hp
      rw [hp] at this
      simp at this
    have hcne : c ≠ start := by
      rcases hst with h | ⟨hv, hq⟩
      · intro hc
        rw [hc] at hvis
        exact hvis h
      · injection hq with h1 _
        injection h1 with h1a h1b
        exact absurd h1b hpne
    exact ⟨path, c, val, rfl, hQ2 (c, path) (List.mem_cons_self _ _),
      hf, hopen, hpne, hcne⟩
  | case5 c path rest visited hvis hrel val hf hcond hcl ih =>
    intro hQ1 hQ2 hst hres
    rw [bpLoop_closed db start relevant c path rest visited hvis hrel val hf
      hcond hcl] at hres ⊢
    refine ih (fun e he => hQ1 e (List.mem_cons_of_mem _ he))
      (fun e he => hQ2 e (List.mem_cons_of_mem _ he)) ?_ hres
    rcases hst with h | ⟨hv, hq⟩
    · exact Or.inl (List.mem_cons_of_mem _ h)
    · injection hq with h1 _
      injection h1 with h1a _
      refine Or.inl ?_
      rw [h1a]
      exact List.mem_cons_self _ _
  | case6 c path rest visited hvis hrel val hf hcond hncl ih =>
    intro hQ1 hQ2 hst hres
    rw [bpLoop_expand db start relevant c path rest visited hvis hrel val hf
      hcond hncl] at hres ⊢
    refine ih ?_ ?_ ?_ hres
    · intro e he
      rcases List.mem_append.mp he with h | h
      · exact hQ1 e (List.mem_cons_of_mem _ h)
      · rcases List.mem_map.mp h with ⟨s, hs, rfl⟩
        exact hsucc c s (List.mem_of_mem_filter hs)
    · intro e he
      rcases List.mem_append.mp he with h | h
      · exact hQ2 e (List.mem_cons_of_mem _ h)
      · rcases List.mem_map.mp h with ⟨s, hs, rfl⟩
        have hpc : PathTo db start path c := hQ2 (c, path) (List.mem_cons_self _ _)
        have hclval : val.status ≠ Status.CLOSED := by
          intro h
          exact hncl (by rw [h]; rfl)
        have hop : path = [] ∨ val.status ≠ Status.OPEN := by
          by_cases ho : val.status = Status.OPEN
          · left
            by_contra hp
            apply hcond
            rw [Bool.and_eq_true]
            constructor
            · exact beq_iff_eq.mpr ho
            · rw [Bool.not_eq_true']
              rw [List.isEmpty_eq_false_iff_exists_mem]
              rcases List.exists_mem_of_ne_nil path hp with ⟨x, hx⟩
              exact ⟨x, hx⟩
          · exact Or.inr ho
        exact PathTo.snoc path c val s hpc hf hclval hop
          (List.mem_of_mem_filter hs)
    · rcases hst with h | ⟨hv, hq⟩
      · exact Or.inl (List.mem_cons_of_mem _ h)
      · injection hq with h1 _
        injection h1 with h1a _
        refine Or.inl ?_
        rw [h1a]
        exact List.mem_cons_self _ _
  | case7 c path rest visited hvis hrel ih =>
    intro hQ1 _ _ _
    exact absurd (hQ1 (c, path) (List.mem_cons_self _ _)) hrel

/-- Closure invariant: every Blocks/ParentChild successor of a visited
expandable node has been discovered (visited or queued). -/
def BpClosed (db : DB) (start : String)
    (queue : List (String × List Issue)) (visited : List String) : Prop :=
  ∀ v ∈ visited, BpExpandable db start v →
    ∀ w ∈ bpSuccs db v, w ∈ visited ∨ ∃ p, (w, p) ∈ queue

theorem bpLoop_complete_aux (db : DB) (start : String)
    (relevant : List String)
    (hsucc : ∀ c s, s ∈ bpSuccs db c → s ∈ relevant) :
    ∀ queue visited,
      (∀ e ∈ queue, e.1 ∈ relevant) →
      (∀ e ∈ queue, e.2 = [] → e.1 = start) →
      (∀ v ∈ visited, ¬ BpGood db start v) →
      BpClosed db start queue visited →
      (start ∈ visited ∨ ∃ p, (start, p) ∈ queue) →
      bpLoop db start relevant queue visited = [] →
      ∀ w, ExpandReach db start w → ¬ BpGood db start w := by
  intro queue visited
  induction queue, visited using bpLoop.induct db start relevant with
  | case1 visited =>
    intro _ _ hW3 hW2 hW4 _ w hreach
    have hstart : start ∈ visited := by
      rcases hW4 with h | ⟨p, hp⟩
      · exact h
      · cases hp
    have hmem : ∀ u, ExpandReach db start u → u ∈ visited := by
      intro u hu
      induction hu with
      | base => exact hstart
      | step v u hv hexp hsw ihv =>
        rcases hW2 v ihv hexp u hsw with h | ⟨p, hp⟩
        · exact h
        · cases hp
    exact hW3 w (hmem w hreach)
  | case2 c path rest visited hvis ih =>
    intro hQ1 hW1 hW3 hW2 hW4 hres
    rw [bpLoop_skip db start relevant c path rest visited hvis] at hres
    refine ih (fun e he => hQ1 e (List.mem_cons_of_mem _ he))
      (fun e he => hW1 e (List.mem_cons_of_mem _ he)) hW3 ?_ ?_ hres
    · intro v hv hexp w hw
      rcases hW2 v hv hexp w hw with h | ⟨p, hp⟩
      · exact Or.inl h
      · rcases List.mem_cons.mp hp with heq | hp
        · injection heq with h1 _
          rw [h1]
          exact Or.inl hvis
        · exact Or.inr ⟨p, hp⟩
    · rcases hW4 with h | ⟨p, hp⟩
      · exact Or.inl h
      · rcases List.mem_cons.mp hp with heq | hp
        · injection heq with h1 _
          rw [h1]
          exact Or.inl hvis
        · exact Or.inr ⟨p, hp⟩
  | case3 c path rest visited hvis hrel hf ih =>
    intro hQ1 hW1 hW3 hW2 hW4 hres
    rw [bpLoop_notfound db start relevant c path rest visited hvis hrel hf]
      at hres
    refine ih (fun e he => hQ1 e (List.mem_cons_of_mem _ he))
      (fun e he => hW1 e (List.mem_cons_of_mem _ he)) ?_ ?_ ?_ hres
    · intro v hv
      rcases List.mem_cons.mp hv with rfl | hv
      · rintro ⟨_, i, hfi, _⟩
        rw [hf] at hfi
        cases hfi
      · exact hW3 v hv
    · intro v hv hexp w hw
      rcases List.mem_cons.mp hv with rfl | hv
      · rcases hexp with ⟨i, hfi, _⟩
        rw [hf] at hfi
        cases hfi
      · rcases hW2 v hv hexp w hw with h | ⟨p, hp⟩
        · exact Or.inl (List.mem_cons_of_mem _ h)
        · rcases List.mem_cons.mp hp with heq | hp
          · injection heq with h1 _
            rw [h1]
            exact Or.inl (List.mem_cons_self _ _)
          · exact Or.inr ⟨p, hp⟩
    · rcases hW4 with h | ⟨p, hp⟩
      · exact Or.inl (List.mem_cons_of_mem _ h)
      · rcases List.mem_cons.mp hp with heq | hp
        · injection heq with h1 _
          rw [h1]
          exact Or.inl (List.mem_cons_self _ _)
        · exact Or.inr ⟨p, hp⟩
  | case4 c path rest visited hvis hrel val hf hcond =>
    intro _ _ _ _ _ hres
    rw [bpLoop_ret db start relevant c path rest visited hvis hrel val hf
      hcond] at hres
    simp at hres
  | case5 c path rest visited hvis hrel val hf hcond hcl ih =>
    intro hQ1 hW1 hW3 hW2 hW4 hres
    rw [bpLoop_closed db start relevant c path rest visited hvis hrel val hf
      hcond hcl] at hres
    have hvcl : val.status = Status.CLOSED := beq_iff_eq.mp hcl
    refine ih (fun e he => hQ1 e (List.mem_cons_of_mem _ he))
      (fun e he => hW1 e (List.mem_cons_of_mem _ he)) ?_ ?_ ?_ hres
    · intro v hv
      rcases List.mem_cons.mp hv with rfl | hv
      · rintro ⟨_, i, hfi, hoi⟩
        rw [hf] at hfi
        injection hfi with hfi
        rw [← hfi, hvcl] at hoi
        cases hoi
      · exact hW3 v hv
    · intro v hv hexp w hw
      rcases List.mem_cons.mp hv with rfl | hv
      · rcases hexp with ⟨i, hfi, hcli, _⟩
        rw [hf] at hfi
        injection hfi with hfi
        exact absurd (hfi ▸ hvcl) hcli
      · rcases hW2 v hv hexp w hw with h | ⟨p, hp⟩
        · exact Or.inl (List.mem_cons_of_mem _ h)
        · rcases List.mem_cons.mp hp with heq | hp
          · injection heq with h1 _
            rw [h1]
            exact Or.inl (List.mem_cons_self _ _)
          · exact Or.inr ⟨p, hp⟩
    · rcases hW4 with h | ⟨p, hp⟩
      · exact Or.inl (List.mem_cons_of_mem _ h)
      · rcases List.mem_cons.mp hp with heq | hp
        · injection heq with h1 _
          rw [h1]
          exact Or.inl (List.mem_cons_self _ _)
        · exact Or.inr ⟨p, hp⟩
  | case6 c path rest visited hvis hrel val hf hcond hncl ih =>
    intro hQ1 hW1 hW3 hW2 hW4 hres
    rw [bpLoop_expand db start relevant c path rest visited hvis hrel val hf
      hcond hncl] at hres
    refine ih ?_ ?_ ?_ ?_ ?_ hres
    · intro e he
      rcases List.mem_append.mp he with h | h
      · exact hQ1 e (List.mem_cons_of_mem _ h)
      · rcases List.mem_map.mp h with ⟨s, hs, rfl⟩
        exact hsucc c s (List.mem_of_mem_filter hs)
    · intro e he
      rcases List.mem_append.mp he with h | h
      · exact hW1 e (List.mem_cons_of_mem _ h)
      · rcases List.mem_map.mp h with ⟨s, hs, rfl⟩
        intro hp
        exact absurd hp (by simp)
    · intro v hv
      rcases List.mem_cons.mp hv with rfl | hv
      · rintro ⟨hvne, i, hfi, hoi⟩
        rw [hf] at hfi
        injection hfi with hfi
        by_cases hpe : path = []
        · exact hvne (hW1 (v, path) (List.mem_cons_self _ _) hpe)
        · apply hcond
          rw [Bool.and_eq_true]
          refine ⟨beq_iff_eq.mpr (by rw [hfi]; exact hoi), ?_⟩
          rw [Bool.not_eq_true']
          rw [List.isEmpty_eq_false_iff_exists_mem]
          rcases List.exists_mem_of_ne_nil path hpe with ⟨x, hx⟩
          exact ⟨x, hx⟩
      · exact hW3 v hv
    · intro v hv hexp w hw
      rcases List.mem_cons.mp hv with rfl | hv
      · by_cases hwv : w ∈ v :: visited
        · exact Or.inl hwv
        · refine Or.inr ⟨path ++ [val], List.mem_append.mpr (Or.inr ?_)⟩
          exact List.mem_map.mpr ⟨w, List.mem_filter.mpr ⟨hw, by simpa using hwv⟩, rfl⟩
      · rcases hW2 v hv hexp w hw with h | ⟨p, hp⟩
        · exact Or.inl (List.mem_cons_of_mem _ h)
        · rcases List.mem_cons.mp hp with heq | hp
          · injection heq with h1 _
            rw [h1]
            exact Or.inl (List.mem_cons_self _ _)
          · exact Or.inr ⟨p, List.mem_append.mpr (Or.inl hp)⟩
    · rcases hW4 with h | ⟨p, hp⟩
      · exact Or.inl (List.mem_cons_of_mem _ h)
      · rcases List.mem_cons.mp hp with heq | hp
        · injection heq with h1 _
          rw [h1]
          exact Or.inl (List.mem_cons_self _ _)
        · exact Or.inr ⟨p, List.mem_append.mpr (Or.inl hp)⟩
  | case7 c path rest visited hvis hrel ih =>
    intro hQ1 _ _ _ _ _
    exact absurd (hQ1 (c, path) (List.mem_cons_self _ _)) hrel

/-- Depth domination: every id reachable by an expansion chain of at most
`l` edges is visited or queued with a recorded path no longer than the
chain. -/
def BpM (db : DB) (start : String) (queue : List (String × List Issue))
    (visited : List String) (l : Nat) : Prop :=
  ∀ w n, ReachN db start n w → n ≤ l →
    w ∈ visited ∨ ∃ p, (w, p) ∈ queue ∧ p.length ≤ n

theorem reachN_succ_inv (db : DB) (start : String) (n : Nat) (w : String)
    (h : ReachN db start (n + 1) w) :
    ∃ v i, ReachN db start n v ∧ findIssue db v = some i ∧
      i.status ≠ Status.CLOSED ∧ (n = 0 ∨ i.status ≠ Status.OPEN) ∧
      w ∈ bpSuccs db v := by
  cases h
  rename_i v i hf hclz hv hop hw
  exact ⟨v, i, hv, hf, hclz, hop, hw⟩

theorem bpM_lift (db : DB) (start : String)
    (queue : List (String × List Issue)) (visited : List String) (l : Nat)
    (hall : ∀ e ∈ queue, e.2.length = l + 1)
    (hcl : BpClosed db start queue visited)
    (hM : BpM db start queue visited l) :
    BpM db start queue visited (l + 1) := by
  intro w n hr hn
  rcases Nat.lt_or_ge n (l + 1) with hlt | hge
  · exact hM w n hr (Nat.lt_succ_iff.mp hlt)
  · have hn1 : n = l + 1 := le_antisymm hn hge
    subst hn1
    obtain ⟨v, i, hv, hf, hclz, hop, hw⟩ := reachN_succ_inv db start l w hr
    have hvdisc := hM v l hv (le_refl l)
    rcases hvdisc with hvv | ⟨p, hpq, hpl⟩
    · have hexp : BpExpandable db start v := by
        refine ⟨i, hf, hclz, ?_⟩
        rcases hop with h | h
        · exact Or.inl (reachN_zero db start v (h ▸ hv))
        · exact Or.inr h
      rcases hcl v hvv hexp w hw with h | ⟨p, hp⟩
      · exact Or.inl h
      · exact Or.inr ⟨p, hp, by rw [hall (w, p) hp]⟩
    · have hlen : p.length = l + 1 := hall (v, p) hpq
      omega

theorem cons_eq_append_ne {α : Type} (x : α) (xs A B : List α)
    (h : x :: xs = A ++ B) (hA : A ≠ []) :
    ∃ A₁, A = x :: A₁ ∧ xs = A₁ ++ B := by
  cases A with
  | nil => exact absurd rfl hA
  | cons a A₁ =>
    rw [List.cons_append] at h
    injection h with h1 h2
    exact ⟨A₁, by rw [h1], h2⟩

theorem bp_layer_normalize (db : DB) (start : String)
    (queue : List (String × List Issue)) (visited : List String)
    (hcl : BpClosed db start queue visited)
    (l : Nat) (A B : List (String × List Issue))
    (hAB : queue = A ++ B)
    (hA : ∀ e ∈ A, e.2.length = l) (hB : ∀ e ∈ B, e.2.length = l + 1)
    (hM : BpM db start queue visited l) :
    ∃ l' A' B', queue = A' ++ B' ∧ (queue ≠ [] → A' ≠ []) ∧
      (∀ e ∈ A', e.2.length = l') ∧ (∀ e ∈ B', e.2.length = l' + 1) ∧
      BpM db start queue visited l' := by
  cases A with
  | nil =>
    rw [List.nil_append] at hAB
    refine ⟨l + 1, B, [], by rw [hAB, List.append_nil], ?_, hB, by simp, ?_⟩
    · intro hne
      rw [hAB] at hne
      exact hne
    · refine bpM_lift db start queue visited l ?_ hcl hM
      intro e he
      rw [hAB] at he
      exact hB e he
  | cons a A₁ =>
    exact ⟨l, a :: A₁, B, hAB, fun _ => by simp, hA, hB, hM⟩

theorem bpLoop_min_aux (db : DB) (start : String) (relevant : List String)
    (hsucc : ∀ c s, s ∈ bpSuccs db c → s ∈ relevant)
    (q : List Issue) (v' : String) (i' : Issue)
    (hq : PathTo db start q v') (hfv : findIssue db v' = some i')
    (hov : i'.status = Status.OPEN) (hvne : v' ≠ start) :
    ∀ queue visited,
      (∀ e ∈ queue, e.1 ∈ relevant) →
      (∀ e ∈ queue, e.2 = [] → e.1 = start) →
      (∀ v ∈ visited, ¬ BpGood db start v) →
      BpClosed db start queue visited →
      ∀ l A B, queue = A ++ B →
        (∀ e ∈ A, e.2.length = l) → (∀ e ∈ B, e.2.length = l + 1) →
        BpM db start queue visited l →
      bpLoop db start relevant queue visited ≠ [] →
      (bpLoop db start relevant queue visited).length ≤ q.length + 1 := by
  intro queue visited
  induction queue, visited using bpLoop.induct db start relevant with
  | case1 visited =>
    intro _ _ _ _ l A B _ _ _ _ hres
    exact absurd (bpLoop_nil db start relevant visited) hres
  | case2 c path rest visited hvis ih =>
    intro hQ1 hW1 hW3 hW2 l A B hAB hA hB hM hres
    rw [bpLoop_skip db start relevant c path rest visited hvis] at hres ⊢
    obtain ⟨l1, A1, B1, hAB1, hAne, hA1, hB1, hM1⟩ :=
      bp_layer_normalize db start ((c, path) :: rest) visited hW2 l A B hAB
        hA hB hM
    obtain ⟨A2, hA2, hrest⟩ :=
      cons_eq_append_ne (c, path) rest A1 B1 hAB1 (hAne (by simp))
    refine ih (fun e he => hQ1 e (List.mem_cons_of_mem _ he))
      (fun e he => hW1 e (List.mem_cons_of_mem _ he)) hW3 ?_ l1 A2 B1 hrest
      (fun e he => hA1 e (by rw [hA2]; exact List.mem_cons_of_mem _ he))
      hB1 ?_ hres
    · intro v hv hexp w hw
      rcases hW2 v hv hexp w hw with h | ⟨p, hp⟩
      · exact Or.inl h
      · rcases List.mem_cons.mp hp with heq | hp
        · injection heq with h1 _
          rw [h1]
          exact Or.inl hvis
        · exact Or.inr ⟨p, hp⟩
    · intro w n hr hn
      rcases hM1 w n hr hn with h | ⟨p, hp, hpl⟩
      · exact Or.inl h
      · rcases List.mem_cons.mp hp with heq | hp
        · injection heq with h1 _
          rw [h1]
          exact Or.inl hvis
        · exact Or.inr ⟨p, hp, hpl⟩
  | case3 c path rest visited hvis hrel hf ih =>
    intro hQ1 hW1 hW3 hW2 l A B hAB hA hB hM hres
    rw [bpLoop_notfound db start relevant c path rest visited hvis hrel hf]
      at hres ⊢
    obtain ⟨l1, A1, B1, hAB1, hAne, hA1, hB1, hM1⟩ :=
      bp_layer_normalize db start ((c, path) :: rest) visited hW2 l A B hAB
        hA hB hM
    obtain ⟨A2, hA2, hrest⟩ :=
      cons_eq_append_ne (c, path) rest A1 B1 hAB1 (hAne (by simp))
    refine ih (fun e he => hQ1 e (List.mem_cons_of_mem _ he))
      (fun e he => hW1 e (List.mem_cons_of_mem _ he)) ?_ ?_ l1 A2 B1 hrest
      (fun e he => hA1 e (by rw [hA2]; exact List.mem_cons_of_mem _ he))
      hB1 ?_ hres
    · intro v hv
      rcases List.mem_cons.mp hv with rfl | hv
      · rintro ⟨_, i, hfi, _⟩
        rw [hf] at hfi
        cases hfi
      · exact hW3 v hv
    · intro v hv hexp w hw
      rcases List.mem_cons.mp hv with rfl | hv
      · rcases hexp with ⟨i, hfi, _⟩
        rw [hf] at hfi
        cases hfi
      · rcases hW2 v hv hexp w hw with h | ⟨p, hp⟩
        · exact Or.inl (List.mem_cons_of_mem _ h)
        · rcases List.mem_cons.mp hp with heq | hp
          · injection heq with h1 _
            rw [h1]
            exact Or.inl (List.mem_cons_self _ _)
          · exact Or.inr ⟨p, hp⟩
    · intro w n hr hn
      rcases hM1 w n hr hn with h | ⟨p, hp, hpl⟩
      · exact Or.inl (List.mem_cons_of_mem _ h)
      · rcases List.mem_cons.mp hp with heq | hp
        · injection heq with h1 _
          rw [h1]
          exact Or.inl (List.mem_cons_self _ _)
        · exact Or.inr ⟨p, hp, hpl⟩
  | case4 c path rest visited hvis hrel val hf hcond =>
    intro hQ1 hW1 hW3 hW2 l A B hAB hA hB hM hres
    rw [bpLoop_ret db start relevant c path rest visited hvis hrel val hf
      hcond] at hres ⊢
    obtain ⟨l1, A1, B1, hAB1, hAne, hA1, hB1, hM1⟩ :=
      bp_layer_normalize db start ((c, path) :: rest) visited hW2 l A B hAB
        hA hB hM
    obtain ⟨A2, hA2, hrest⟩ :=
      cons_eq_append_ne (c, path) rest A1 B1 hAB1 (hAne (by simp))
    have hplen : path.length = l1 :=
      hA1 (c, path) (by rw [hA2]; exact List.mem_cons_self _ _)
    have hqlen : l1 ≤ q.length := by
      by_contra hlt
      push_neg at hlt
      have hqr : ReachN db start q.length v' :=
        pathTo_reachN db start q v' hq
      rcases hM1 v' q.length hqr (Nat.le_of_lt hlt) with h | ⟨p, hp, hpl⟩
      · exact hW3 v' h ⟨hvne, i', hfv, hov⟩
      · rw [hAB1] at hp
        rcases List.mem_append.mp hp with hpA | hpB
        · have hp1 : p.length = l1 := hA1 (v', p) hpA
          omega
        · have hp1 : p.length = l1 + 1 := hB1 (v', p) hpB
          omega
    rw [List.length_append, List.length_cons, List.length_nil]
    omega
  | case5 c path rest visited hvis hrel val hf hcond hcl ih =>
    intro hQ1 hW1 hW3 hW2 l A B hAB hA hB hM hres
    rw [bpLoop_closed db start relevant c path rest visited hvis hrel val hf
      hcond hcl] at hres ⊢
    have hvcl : val.status = Status.CLOSED := beq_iff_eq.mp hcl
    obtain ⟨l1, A1, B1, hAB1, hAne, hA1, hB1, hM1⟩ :=
      bp_layer_normalize db start ((c, path) :: rest) visited hW2 l A B hAB
        hA hB hM
    obtain ⟨A2, hA2, hrest⟩ :=
      cons_eq_append_ne (c, path) rest A1 B1 hAB1 (hAne (by simp))
    refine ih (fun e he => hQ1 e (List.mem_cons_of_mem _ he))
      (fun e he => hW1 e (List.mem_cons_of_mem _ he)) ?_ ?_ l1 A2 B1 hrest
      (fun e he => hA1 e (by rw [hA2]; exact List.mem_cons_of_mem _ he))
      hB1 ?_ hres
    · intro v hv
      rcases List.mem_cons.mp hv with rfl | hv
      · rintro ⟨_, i, hfi, hoi⟩
        rw [hf] at hfi
        injection hfi with hfi
        rw [← hfi, hvcl] at hoi
        cases hoi
      · exact hW3 v hv
    · intro v hv hexp w hw
      rcases List.mem_cons.mp hv with rfl | hv
      · rcases hexp with ⟨i, hfi, hcli, _⟩
        rw [hf] at hfi
        injection hfi with hfi
        exact absurd (hfi ▸ hvcl) hcli
      · rcases hW2 v hv hexp w hw with h | ⟨p, hp⟩
        · exact Or.inl (List.mem_cons_of_mem _ h)
        · rcases List.mem_cons.mp hp with heq | hp
          · injection heq with h1 _
            rw [h1]
            exact Or.inl (List.mem_cons_self _ _)
          · exact Or.inr ⟨p, hp⟩
    · intro w n hr hn
      rcases hM1 w n hr hn with h | ⟨p, hp, hpl⟩
      · exact Or.inl (List.mem_cons_of_mem _ h)
      · rcases List.mem_cons.mp hp with heq | hp
        · injection heq with h1 _
          rw [h1]
          exact Or.inl (List.mem_cons_self _ _)
        · exact Or.inr ⟨p, hp, hpl⟩
  | case6 c path rest visited hvis hrel val hf hcond hncl ih =>
    intro hQ1 hW1 hW3 hW2 l A B hAB hA hB hM hres
    rw [bpLoop_expand db start relevant c path rest visited hvis hrel val hf
      hcond hncl] at hres ⊢
    obtain ⟨l1, A1, B1, hAB1, hAne, hA1, hB1, hM1⟩ :=
      bp_layer_normalize db start ((c, path) :: rest) visited hW2 l A B hAB
        hA hB hM
    obtain ⟨A2, hA2, hrest⟩ :=
      cons_eq_append_ne (c, path) rest A1 B1 hAB1 (hAne (by simp))
    have hplen : path.length = l1 :=
      hA1 (c, path) (by rw [hA2]; exact List.mem_cons_self _ _)
    refine ih ?_ ?_ ?_ ?_ l1 A2
      (B1 ++ ((bpSuccs db c).filter (fun s => decide (s ∉ c :: visited))).map
        (fun s => (s, path ++ [val])))
      (by rw [hrest, List.append_assoc])
      (fun e he => hA1 e (by rw [hA2]; exact List.mem_cons_of_mem _ he))
      ?_ ?_ hres
    · intro e he
      rcases List.mem_append.mp he with h | h
      · exact hQ1 e (List.mem_cons_of_mem _ h)
      · rcases List.mem_map.mp h with ⟨s, hs, rfl⟩
        exact hsucc c s (List.mem_of_mem_filter hs)
    · intro e he
      rcases List.mem_append.mp he with h | h
      · exact hW1 e (List.mem_cons_of_mem _ h)
      · rcases List.mem_map.mp h with ⟨s, hs, rfl⟩
        intro hp
        exact absurd hp (by simp)
    · intro v hv
      rcases List.mem_cons.mp hv with rfl | hv
      · rintro ⟨hvne2, i, hfi, hoi⟩
        rw [hf] at hfi
        injection hfi with hfi
        by_cases hpe : path = []
        · exact hvne2 (hW1 (v, path) (List.mem_cons_self _ _) hpe)
        · apply hcond
          rw [Bool.and_eq_true]
          refine ⟨beq_iff_eq.mpr (by rw [hfi]; exact hoi), ?_⟩
          rw [Bool.not_eq_true']
          rw [List.isEmpty_eq_false_iff_exists_mem]
          rcases List.exists_mem_of_ne_nil path hpe with ⟨x, hx⟩
          exact ⟨x, hx⟩
      · exact hW3 v hv
    · intro v hv hexp w hw
      rcases List.mem_cons.mp hv with rfl | hv
      · by_cases hwv : w ∈ v :: visited
        · exact Or.inl hwv
        · refine Or.inr ⟨path ++ [val], List.mem_append.mpr (Or.inr ?_)⟩
          exact List.mem_map.mpr
            ⟨w, List.mem_filter.mpr ⟨hw, by simpa using hwv⟩, rfl⟩
      · rcases hW2 v hv hexp w hw with h | ⟨p, hp⟩
        · exact Or.inl (List.mem_cons_of_mem _ h)
        · rcases List.mem_cons.mp hp with heq | hp
          · injection heq with h1 _
            rw [h1]
            exact Or.inl (List.mem_cons_self _ _)
          · exact Or.inr ⟨p, List.mem_append.mpr (Or.inl hp)⟩
    · intro e he
      rcases List.mem_append.mp he with h | h
      · exact hB1 e h
      · rcases List.mem_map.mp h with ⟨s, hs, rfl⟩
        rw [List.length_append, List.length_cons, List.length_nil]
        omega
    · intro w n hr hn
      rcases hM1 w n hr hn with h | ⟨p, hp, hpl⟩
      · exact Or.inl (List.mem_cons_of_mem _ h)
      · rcases List.mem_cons.mp hp with heq | hp
        · injection heq with h1 _
          rw [h1]
          exact Or.inl (List.mem_cons_self _ _)
        · exact Or.inr ⟨p, List.mem_append.mpr (Or.inl hp), hpl⟩
  | case7 c path rest visited hvis hrel ih =>
    intro hQ1 _ _ _ _ _ _ _ _ _ _
    exact absurd (hQ1 (c, path) (List.mem_cons_self _ _)) hrel

/-- Chain store: X blocks on Y, Y blocks on Z, all three open. -/
def c7db : DB :=
  { issues := [exIssue "X" .OPEN, exIssue "Y" .OPEN, exIssue "Z" .OPEN],
    deps := [{ issue_id := "X", depends_on_id := "Y", type := .BLOCKS },
             { issue_id := "Y", depends_on_id := "Z", type := .BLOCKS }] }

/-- Store whose sole blocker of X is closed. -/
def c7db2 : DB :=
  { issues := [exIssue "X" .OPEN, exIssue "Y" .CLOSED],
    deps := [{ issue_id := "X", depends_on_id := "Y", type := .BLOCKS }] }

theorem c7_example1 :
    find_blocking_path c7db "X" = [exIssue "X" .OPEN, exIssue "Y" .OPEN] := by
  simp [find_blocking_path, c7db, bpRelevant]
  simp [bpLoop, bpSuccs, findIssue, exIssue]

theorem c7_example2 : find_blocking_path c7db2 "X" = [] := by
  simp [find_blocking_path, c7db2, bpRelevant]
  simp [bpLoop, bpSuccs, findIssue, exIssue]

/-- C7: `find_blocking_path` is a breadth-first search over outgoing
Blocks/ParentChild edges. A non-empty result decomposes as a valid expansion
chain (`PathTo`: each recorded node resolves to a stored non-closed issue,
open only at the very first step) followed by one final issue that is stored,
open and distinct from the start - so closed items are never expanded and the
chain ends at an open item other than the start. An empty result means no id
satisfying that goal is reachable through expandable nodes. A non-empty
result is shortest by edge count among all valid chains ending at an open
non-start issue. On the concrete chain X -Blocks-> Y -Blocks-> Z with all
three open the result is [X, Y], and it is [] when the sole blocker is
closed. -/
theorem blocking_path_spec :
    (∀ (db : DB) (start : String),
      find_blocking_path db start ≠ [] →
      ∃ path c issue, find_blocking_path db start = path ++ [issue] ∧
        PathTo db start path c ∧ findIssue db c = some issue ∧
        issue.status = Status.OPEN ∧ path ≠ [] ∧ c ≠ start) ∧
    (∀ (db : DB) (start : String),
      find_blocking_path db start = [] →
      ∀ w, ExpandReach db start w → ¬ BpGood db start w) ∧
    (∀ (db : DB) (start : String) (q : List Issue) (v' : String) (i' : Issue),
      PathTo db start q v' → findIssue db v' = some i' →
      i'.status = Status.OPEN → v' ≠ start →
      find_blocking_path db start ≠ [] →
      (find_blocking_path db start).length ≤ q.length + 1) ∧
    find_blocking_path c7db "X" = [exIssue "X" .OPEN, exIssue "Y" .OPEN] ∧
    find_blocking_path c7db2 "X" = [] := by
  refine ⟨?_, ?_, ?_, c7_example1, c7_example2⟩
  · intro db start hres
    rw [find_blocking_path] at hres ⊢
    exact bpLoop_sound_aux db start (bpRelevant db start)
      (bpSuccs_relevant db start) [(start, [])] []
      (by
        intro e he
        rw [List.mem_singleton] at he
        subst he
        exact List.mem_cons_self _ _)
      (by
        intro e he
        rw [List.mem_singleton] at he
        subst he
        exact PathTo.nil)
      (Or.inr ⟨rfl, rfl⟩) hres
  · intro db start hres
    rw [find_blocking_path] at hres
    exact bpLoop_complete_aux db start (bpRelevant db start)
      (bpSuccs_relevant db start) [(start, [])] []
      (by
        intro e he
        rw [List.mem_singleton] at he
        subst he
        exact List.mem_cons_self _ _)
      (by
        intro e he
        rw [List.mem_singleton] at he
        subst he
        intro _
        rfl)
      (by intro v hv; cases hv)
      (by intro v hv; cases hv)
      (Or.inr ⟨[], List.mem_singleton.mpr rfl⟩) hres
  · intro db start q v' i' hq hfv hov hvne hres
    rw [find_blocking_path] at hres ⊢
    refine bpLoop_min_aux db start (bpRelevant db start)
      (bpSuccs_relevant db start) q v' i' hq hfv hov hvne [(start, [])] []
      (by
        intro e he
        rw [List.mem_singleton] at he
        subst he
        exact List.mem_cons_self _ _)
      (by
        intro e he
        rw [List.mem_singleton] at he
        subst he
        intro _
        rfl)
      (by intro v hv; cases hv)
      (by intro v hv; cases hv)
      0 [(start, [])] [] rfl
      (by
        intro e he
        rw [List.mem_singleton] at he
        subst he
        rfl)
      (by intro e he; cases he)
      ?_ hres
    intro w n hr hn
    have hn0 : n = 0 := Nat.le_zero.mp hn
    subst hn0
    have hw : w = start := reachN_zero db start w hr
    refine Or.inr ⟨[], ?_, by simp⟩
    rw [hw]
    exact List.mem_singleton.mpr rfl

/-- Witness: the X-Y-Z chain result has at most one edge beyond the
competitor chain X->Y (so two entries), and in the closed-blocker store
nothing reachable is an open non-start node - instantiated at the reachable
id Y. -/
theorem blocking_path_spec_witness :
    (find_blocking_path c7db "X").length ≤ 2 ∧
    ¬ BpGood c7db2 "X" "Y" := by
  constructor
  · refine blocking_path_spec.2.2.1 c7db "X" [exIssue "X" Status.OPEN] "Y"
      (exIssue "Y" Status.OPEN)
      (PathTo.snoc [] "X" (exIssue "X" Status.OPEN) "Y" PathTo.nil
        (by decide) (by decide) (Or.inl rfl) (by decide))
      (by decide) rfl (by decide) ?_
    rw [c7_example1]
    simp
  · exact blocking_path_spec.2.1 c7db2 "X" c7_example2 "Y"
      (ExpandReach.step "X" "Y" ExpandReach.base
        ⟨exIssue "X" Status.OPEN, by decide, by decide, Or.inl rfl⟩
        (by decide))

end Aitrac
